import Mathlib

/-!
Verification development for the extraction-and-verification pipeline
(backend/app/services/{grounding,aoai,workflow_runner}.py and
backend/app/utils/json_safe.py).

Modelling conventions:
- Python strings are `List Char`; `str.lower` is ASCII `Char.toLower`
  (all characters relevant to the matching rules are ASCII or the dash
  code points, which are unaffected).
- Python floats are modelled as `ℚ`; `round(x, 2)` is round-half-to-even
  on `100 * x` (exact on the decimal values arising here).
- Exceptions are modelled with an explicit result type `PRes`.
- External services (LLM chat completion, vision) and `json.loads` are
  modelled as oracle parameters; all pipeline logic around them is
  translated from the source.
-/

namespace Pipeline

/-! ## Python-style string primitives -/

/-- Python whitespace class `\s` (ASCII part, as produced by the pipeline). -/
def isPySpace (c : Char) : Bool :=
  c = ' ' || c = '\t' || c = '\n' || c = '\r' || c = '\x0b' || c = '\x0c'

def isDigitC (c : Char) : Bool := c.isDigit

/-- Character class `[\d.]`. -/
def isDotDigit (c : Char) : Bool := c.isDigit || c = '.'

/-- Python `str.strip()` (whitespace strip on both ends). -/
def pyStrip (l : List Char) : List Char :=
  ((l.dropWhile isPySpace).reverse.dropWhile isPySpace).reverse

/-- Python `str.split()` with no argument: split on whitespace runs, dropping empties. -/
def splitWsAux : List Char → List Char → List (List Char)
  | [], acc => if acc = [] then [] else [acc.reverse]
  | c :: rest, acc =>
    if isPySpace c then
      if acc = [] then splitWsAux rest [] else acc.reverse :: splitWsAux rest []
    else splitWsAux rest (c :: acc)

def splitWs (l : List Char) : List (List Char) := splitWsAux l []

/-- Does `pat` occur at the head of `hay`? -/
def startsL : List Char → List Char → Bool
  | [], _ => true
  | _ :: _, [] => false
  | a :: as, b :: bs => a = b && startsL as bs

/-- Python substring containment `pat in hay` (empty pattern is contained). -/
def isSubL (pat : List Char) : List Char → Bool
  | [] => startsL pat []
  | c :: rest => startsL pat (c :: rest) || isSubL pat rest

/-- Longest run of characters satisfying `p`, plus the remainder. -/
def takeRun (p : Char → Bool) : List Char → List Char × List Char
  | [] => ([], [])
  | c :: rest =>
    if p c then
      let pr := takeRun p rest
      (c :: pr.1, pr.2)
    else ([], c :: rest)

/-- Case-insensitive literal match: `lit` is given lowercased; on success
returns the consumed original characters and the remainder. -/
def dropLitCI : List Char → List Char → Option (List Char × List Char)
  | [], rest => some ([], rest)
  | _ :: _, [] => none
  | k :: ks, c :: cs =>
    if c.toLower = k then (dropLitCI ks cs).map (fun pr => (c :: pr.1, pr.2)) else none

/-- Python slice `l[a:b]` for non-negative bounds. -/
def pySlice (l : List Char) (a b : Nat) : List Char := (l.take b).drop a

/-- Python `str.replace(pat, rep)`: left-to-right, non-overlapping, all occurrences.
Fuel-driven recursion; the initial fuel `l.length + 1` always suffices because
every step consumes at least one input character when `pat` is nonempty. -/
def replaceAllAux (pat rep : List Char) : Nat → List Char → List Char
  | 0, l => l
  | _ + 1, [] => []
  | fuel + 1, c :: rest =>
    if pat ≠ [] && startsL pat (c :: rest) then
      rep ++ replaceAllAux pat rep fuel ((c :: rest).drop pat.length)
    else
      c :: replaceAllAux pat rep fuel rest

def replaceAllL (l pat rep : List Char) : List Char :=
  replaceAllAux pat rep (l.length + 1) l

/-- Keep the first occurrence of each element (used for `dict.fromkeys` dedup). -/
def dedupFirstAux [DecidableEq α] (seen : List α) : List α → List α
  | [] => []
  | x :: xs =>
    if seen.contains x then dedupFirstAux seen xs
    else x :: dedupFirstAux (x :: seen) xs

def dedupFirst [DecidableEq α] (l : List α) : List α := dedupFirstAux [] l

/-! ## Rational models of Python float operations -/

/-- Round half to even, the tie-breaking used by Python `round`. -/
def roundHalfEvenZ (q : ℚ) : ℤ :=
  let n := ⌊q⌋
  let f := q - n
  if f < 1/2 then n
  else if 1/2 < f then n + 1
  else if n % 2 = 0 then n else n + 1

/-- Model of Python `round(x, 2)` on the exact rational value. -/
def round2 (q : ℚ) : ℚ := (roundHalfEvenZ (q * 100) : ℚ) / 100

/-- Model of Python `round(x)` (used for estimated figure pages). -/
def pyRound (q : ℚ) : ℤ := roundHalfEvenZ q

/-- Decimal-string parse, the behaviour of Python `float` on strings drawn
from the character class `[\d.]+`: at most one dot and at least one digit. -/
def digitsToNat (l : List Char) : Nat :=
  l.foldl (fun acc c => acc * 10 + (c.toNat - '0'.toNat)) 0

def parseDecimal (s : List Char) : Option ℚ :=
  let intPart := s.takeWhile isDigitC
  let rest := s.dropWhile isDigitC
  match rest with
  | [] => if intPart = [] then none else some (digitsToNat intPart)
  | '.' :: frac =>
    if frac.all isDigitC && (intPart ≠ [] || frac ≠ []) then
      some ((digitsToNat intPart : ℚ) + (digitsToNat frac : ℚ) / (10 ^ frac.length : ℚ))
    else none
  | _ => none

end Pipeline

namespace Pipeline

/-! ## difflib.SequenceMatcher (isjunk = None)

Model of `SequenceMatcher(None, a, b).ratio()`. The junk set `bjunk` is
always empty at the call sites (no `isjunk` argument), so the
junk-extension loops of `find_longest_match` never fire and are omitted;
autojunk removal of popular elements from `b2j` (when `len(b) >= 200`)
is modelled. -/

/-- Ascending positions of `c` in `b` (the `b2j` table entry). -/
def posIdx (b : List Char) (c : Char) : List Nat :=
  b.enum.filterMap (fun p => if p.2 = c then some p.1 else none)

/-- The `b2j` lookup with autojunk: popular characters (count exceeding
`len(b) / 100 + 1` when `len(b) >= 200`) are removed. -/
def b2jFun (b : List Char) (c : Char) : List Nat :=
  let ps := posIdx b c
  if b.length ≥ 200 && ps.length > b.length / 100 + 1 then [] else ps

structure FLM where
  besti : Nat
  bestj : Nat
  bestsize : Nat
deriving DecidableEq, Repr

def lookupJ (m : List (Nat × Nat)) (j : Nat) : Nat :=
  ((m.find? (fun p => p.1 = j)).map (·.2)).getD 0

/-- One row (fixed `i`) of the `find_longest_match` dynamic program. -/
def flmRow (j2len : List (Nat × Nat)) (i : Nat) (js : List Nat) (best : FLM) :
    List (Nat × Nat) × FLM :=
  js.foldl
    (fun st j =>
      let k := (if j = 0 then 0 else lookupJ j2len (j - 1)) + 1
      let best := if k > st.2.bestsize then FLM.mk (i + 1 - k) (j + 1 - k) k else st.2
      ((j, k) :: st.1, best))
    (([] : List (Nat × Nat)), best)

def flmCore (a b : List Char) (alo ahi blo bhi : Nat) : FLM :=
  ((List.range' alo (ahi - alo)).foldl
    (fun st i =>
      let js := (b2jFun b (a.getD i ' ')).filter (fun j => blo ≤ j && j < bhi)
      flmRow st.1 i js st.2)
    (([] : List (Nat × Nat)), FLM.mk alo blo 0)).2

def extendLeft (a b : List Char) (alo blo : Nat) : Nat → FLM → FLM
  | 0, m => m
  | fuel + 1, m =>
    if m.besti > alo && m.bestj > blo &&
        a.getD (m.besti - 1) ' ' = b.getD (m.bestj - 1) ' ' then
      extendLeft a b alo blo fuel (FLM.mk (m.besti - 1) (m.bestj - 1) (m.bestsize + 1))
    else m

def extendRight (a b : List Char) (ahi bhi : Nat) : Nat → FLM → FLM
  | 0, m => m
  | fuel + 1, m =>
    if m.besti + m.bestsize < ahi && m.bestj + m.bestsize < bhi &&
        a.getD (m.besti + m.bestsize) ' ' = b.getD (m.bestj + m.bestsize) ' ' then
      extendRight a b ahi bhi fuel (FLM.mk m.besti m.bestj (m.bestsize + 1))
    else m

/-- `find_longest_match` over `a[alo:ahi]` and `b[blo:bhi]`. -/
def findLongestMatch (a b : List Char) (alo ahi blo bhi : Nat) : FLM :=
  let m := flmCore a b alo ahi blo bhi
  let m := extendLeft a b alo blo m.besti m
  extendRight a b ahi bhi (ahi + 1) m

/-- Total size of the matching blocks (the recursive splitting of
`get_matching_blocks`; only the sum of block sizes is needed for `ratio`). -/
def matchesTotal (a b : List Char) : Nat → Nat → Nat → Nat → Nat → Nat
  | 0, _, _, _, _ => 0
  | fuel + 1, alo, ahi, blo, bhi =>
    let m := findLongestMatch a b alo ahi blo bhi
    if m.bestsize = 0 then 0
    else
      matchesTotal a b fuel alo m.besti blo m.bestj + m.bestsize +
        matchesTotal a b fuel (m.besti + m.bestsize) ahi (m.bestj + m.bestsize) bhi

/-- Model of `SequenceMatcher(None, a, b).ratio()`. -/
def ratioSM (a b : List Char) : ℚ :=
  let M := matchesTotal a b (a.length + b.length + 1) 0 a.length 0 b.length
  if a.length + b.length = 0 then 1
  else 2 * (M : ℚ) / ((a.length : ℚ) + (b.length : ℚ))

end Pipeline


namespace Pipeline

/-! ## grounding.py — text normalization and key-value extraction

The extraction functions model `re.finditer` over the fixed patterns of
`_extract_key_values`: left-to-right scan, non-overlapping matches, greedy
quantifiers. Each pattern is deterministic on its character classes (the
analyses follow the classes in the source regexes), so each is written as
a direct scanner. -/

/-- Model of `_normalize`: lowercase, unify dash variants, collapse
whitespace runs to single spaces, strip. -/
def collapseWsAux : List Char → Bool → List Char
  | [], _ => []
  | c :: rest, prev =>
    if isPySpace c then
      if prev then collapseWsAux rest true else ' ' :: collapseWsAux rest true
    else c :: collapseWsAux rest false

def normalizeText (l : List Char) : List Char :=
  let t := (l.map Char.toLower).map
    (fun c => if c = '–' || c = '—' || c = '‒' || c = '−' then '-' else c)
  pyStrip (collapseWsAux t false)

/-- Typed statistical values extracted by `_extract_key_values`. -/
inductive KeyValue where
  | metric (name value : List Char)
  | pvalue (op value : List Char)
  | ci (low high : List Char)
  | ciBracket (low high : List Char)
  | percent (value : List Char)
  | nValue (value : List Char)
  | duration (value unit : List Char)
  | dosage (value unit : List Char)
deriving DecidableEq, Repr

/-- Ordered alternation of case-insensitive literals (first match wins,
as in a regex alternation of distinct literals). -/
def altLitCI (lits : List (List Char)) (l : List Char) : Option (List Char × List Char) :=
  match lits with
  | [] => none
  | k :: ks =>
    match dropLitCI k l with
    | some pr => some pr
    | none => altLitCI ks l

def skipSpaces (l : List Char) : List Char := (takeRun isPySpace l).2

/-- Scanner for `(HR|RR|OR)\s*(?:=|is|of|:)\s*([\d.]+)` (case-insensitive). -/
def metricAt (l : List Char) : Option (KeyValue × List Char) :=
  match altLitCI ["hr".data, "rr".data, "or".data] l with
  | none => none
  | some (nm, r1) =>
    match altLitCI ["=".data, "is".data, "of".data, ":".data] (skipSpaces r1) with
    | none => none
    | some (_, r3) =>
      let pr := takeRun isDotDigit (skipSpaces r3)
      if pr.1 = [] then none
      else some (.metric (nm.map Char.toUpper) pr.1, pr.2)

/-- Scanner for `p\s*([<>=]+)\s*([\d.]+)` (case-insensitive). -/
def pvalueAt (l : List Char) : Option (KeyValue × List Char) :=
  match l with
  | [] => none
  | c :: rest =>
    if c.toLower = 'p' then
      let op := takeRun (fun d => d = '<' || d = '>' || d = '=') (skipSpaces rest)
      if op.1 = [] then none
      else
        let v := takeRun isDotDigit (skipSpaces op.2)
        if v.1 = [] then none else some (.pvalue op.1 v.1, v.2)
    else none

/-- Scanner for `CI[:\s]*([\d.]+)\s*[-–,\s]+\s*([\d.]+)` (case-insensitive).
Because `\s` is contained in the separator class `[-–,\s]`, the composite
`\s*[-–,\s]+\s*` matches exactly a nonempty maximal run over that class. -/
def ciAt (l : List Char) : Option (KeyValue × List Char) :=
  match dropLitCI "ci".data l with
  | none => none
  | some (_, r1) =>
    let r2 := (takeRun (fun c => c = ':' || isPySpace c) r1).2
    let low := takeRun isDotDigit r2
    if low.1 = [] then none
    else
      let sep := takeRun (fun c => c = '-' || c = '–' || c = ',' || isPySpace c) low.2
      if sep.1 = [] then none
      else
        let high := takeRun isDotDigit sep.2
        if high.1 = [] then none else some (.ci low.1 high.1, high.2)

/-- Scanner for `[\[(]([\d.]+)\s*[,\s]\s*([\d.]+)[\])]`. The separator
`\s*[,\s]\s*` matches either a nonempty run of spaces or spaces around a
single comma (followed by a digit, making the split deterministic). -/
def ciBracketAt (l : List Char) : Option (KeyValue × List Char) :=
  match l with
  | [] => none
  | c :: r1 =>
    if c = '[' || c = '(' then
      let low := takeRun isDotDigit r1
      if low.1 = [] then none
      else
        let sp1 := takeRun isPySpace low.2
        let afterSep :=
          match sp1.2 with
          | ',' :: r4 => some (skipSpaces r4)
          | r => if sp1.1 = [] then none else some r
        match afterSep with
        | none => none
        | some r5 =>
          let high := takeRun isDotDigit r5
          if high.1 = [] then none
          else
            match high.2 with
            | d :: r7 => if d = ']' || d = ')' then some (.ciBracket low.1 high.1, r7) else none
            | [] => none
    else none

/-- Scanner for `([\d.]+)\s*%`. -/
def percentAt (l : List Char) : Option (KeyValue × List Char) :=
  let v := takeRun isDotDigit l
  if v.1 = [] then none
  else
    match skipSpaces v.2 with
    | '%' :: r => some (.percent v.1, r)
    | _ => none

/-- Scanner for `[Nn]\s*=\s*([\d,]+)`; the captured value has commas removed. -/
def nValueAt (l : List Char) : Option (KeyValue × List Char) :=
  match l with
  | [] => none
  | c :: r1 =>
    if c = 'N' || c = 'n' then
      match skipSpaces r1 with
      | '=' :: r3 =>
        let v := takeRun (fun d => isDigitC d || d = ',') (skipSpaces r3)
        if v.1 = [] then none else some (.nValue (v.1.filter (· ≠ ',')), v.2)
      | _ => none
    else none

/-- Scanner for `([\d.]+)\s*(months?|years?|weeks?)` (case-insensitive);
the captured unit is lowercased by the caller (`.lower()`). -/
def durationAt (l : List Char) : Option (KeyValue × List Char) :=
  let v := takeRun isDotDigit l
  if v.1 = [] then none
  else
    match altLitCI (["months", "month", "years", "year", "weeks", "week"].map String.data)
        (skipSpaces v.2) with
    | none => none
    | some (u, r) => some (.duration v.1 (u.map Char.toLower), r)

/-- Scanner for `([\d.]+)\s*(Gy|mg/?m[²2]?)` (case-insensitive); the unit is
captured in its original case (`m.group(2)` is not lowercased in the source). -/
def dosageAt (l : List Char) : Option (KeyValue × List Char) :=
  let v := takeRun isDotDigit l
  if v.1 = [] then none
  else
    let r2 := skipSpaces v.2
    match dropLitCI "gy".data r2 with
    | some (u, r3) => some (.dosage v.1 u, r3)
    | none =>
      match dropLitCI "mg".data r2 with
      | none => none
      | some (mg, r3) =>
        let afterM :=
          match r3 with
          | '/' :: m :: r4 => if m.toLower = 'm' then some (mg ++ ['/', m], r4) else none
          | m :: r4 => if m.toLower = 'm' then some (mg ++ [m], r4) else none
          | [] => none
        match afterM with
        | none => none
        | some (u, r5) =>
          match r5 with
          | d :: r6 => if d = '²' || d = '2' then some (.dosage v.1 (u ++ [d]), r6) else some (.dosage v.1 u, r5)
          | [] => some (.dosage v.1 u, r5)

/-- Model of `re.finditer`: scan left to right, emit non-overlapping matches,
continue after each match (all scanners consume at least one character). -/
def finditerAux (matchAt : List Char → Option (KeyValue × List Char)) :
    Nat → List Char → List KeyValue
  | 0, _ => []
  | _ + 1, [] => []
  | fuel + 1, c :: rest =>
    match matchAt (c :: rest) with
    | some (g, remaining) =>
      if remaining.length < (c :: rest).length then
        g :: finditerAux matchAt fuel remaining
      else g :: finditerAux matchAt fuel rest
    | none => finditerAux matchAt fuel rest

def finditer (matchAt : List Char → Option (KeyValue × List Char)) (l : List Char) :
    List KeyValue :=
  finditerAux matchAt (l.length + 1) l

/-- Model of `_extract_key_values`: all eight pattern scans, appended in
source order. -/
def extract_key_values (text : List Char) : List KeyValue :=
  finditer metricAt text ++ finditer pvalueAt text ++ finditer ciAt text ++
    finditer ciBracketAt text ++ finditer percentAt text ++ finditer nValueAt text ++
    finditer durationAt text ++ finditer dosageAt text

end Pipeline


namespace Pipeline

/-! ## grounding.py — statistical evidence verification -/

def STAT_MATCH_THRESHOLD : ℚ := 1/2
def QUOTE_SIMILARITY_THRESHOLD : ℚ := 6/10

/-- Model of `_find_value_in_source`. -/
def find_value_in_source (value source_norm : List Char) : Bool :=
  isSubL value source_norm ||
    (startsL "0.".data value && isSubL (value.drop 1) source_norm)

/-- Labels built for the `found` / `missing` lists of `_verify_stat_evidence`. -/
def statLabel : KeyValue → List Char
  | .metric n v => n ++ "=".data ++ v
  | .pvalue op v => "p".data ++ op ++ v
  | .ci low high => "CI ".data ++ low ++ "-".data ++ high
  | .ciBracket low high => "[".data ++ low ++ ", ".data ++ high ++ "]".data
  | .percent v => v ++ "%".data
  | .nValue v => "N=".data ++ v
  | .duration v u => v ++ " ".data ++ u
  | .dosage v u => v ++ " ".data ++ u

/-- Per-claim-value match decision of `_verify_stat_evidence`. `none` models
the uncaught `float()` exception on a malformed claimed p-value (the
source-side `float()` calls are wrapped in `try/except` and skipped). -/
def statFoundQ (source_metrics : List (List Char × List Char))
    (source_ci_bounds : List (List Char)) (source_p_values : List (List Char))
    (source_norm : List Char) : KeyValue → Option Bool
  | .metric n v =>
    some (source_metrics.contains (n, v) ||
      (find_value_in_source v source_norm && isSubL (n.map Char.toLower) source_norm))
  | .ci low high =>
    some ((source_ci_bounds.contains low || find_value_in_source low source_norm) &&
      (source_ci_bounds.contains high || find_value_in_source high source_norm))
  | .ciBracket low high =>
    some ((source_ci_bounds.contains low || find_value_in_source low source_norm) &&
      (source_ci_bounds.contains high || find_value_in_source high source_norm))
  | .pvalue op v =>
    match parseDecimal v with
    | none => none
    | some claimP =>
      let hit := source_p_values.any (fun sp =>
        match parseDecimal sp with
        | none => false
        | some sourceP =>
          if op = "<".data || op = "<=".data then decide (sourceP ≤ claimP)
          else if op = "=".data then decide (|sourceP - claimP| < 1/1000)
          else false)
      some (hit || find_value_in_source v source_norm)
  | .percent v => some (find_value_in_source v source_norm)
  | .nValue v => some (find_value_in_source v source_norm)
  | .duration v _ => some (find_value_in_source v source_norm)
  | .dosage v _ => some (find_value_in_source v source_norm)

/-- Fold of the claim-value loop of `_verify_stat_evidence`, producing the
`found` and `missing` label lists in order. -/
def statScan (sm : List (List Char × List Char)) (cib spv : List (List Char))
    (sn : List Char) : List KeyValue → Option (List (List Char) × List (List Char))
  | [] => some ([], [])
  | cv :: rest =>
    match statFoundQ sm cib spv sn cv with
    | none => none
    | some isFound =>
      (statScan sm cib spv sn rest).map (fun pr =>
        if isFound then (statLabel cv :: pr.1, pr.2) else (pr.1, statLabel cv :: pr.2))

structure StatRes where
  grounded : Option Bool
  score : ℚ
  found : List (List Char)
  missing : List (List Char)
  detail : Option (List Char)
deriving DecidableEq, Repr

/-- Model of `_verify_stat_evidence`. Returns `none` when the Python code
would raise (malformed claimed p-value reaching the unguarded `float()`).
The `source_all_numbers` set of the source is built but never read, so it
is not modelled. -/
def sourceMetricsOf (source_values : List KeyValue) : List (List Char × List Char) :=
  source_values.filterMap (fun v => match v with | .metric n w => some (n, w) | _ => none)

def sourceBoundsOf (source_values : List KeyValue) : List (List Char) :=
  source_values.foldr
    (fun v acc => match v with
      | .ci low high => low :: high :: acc
      | .ciBracket low high => low :: high :: acc
      | _ => acc) []

def sourcePsOf (source_values : List KeyValue) : List (List Char) :=
  source_values.filterMap (fun v => match v with | .pvalue _ w => some w | _ => none)

def verify_stat_evidence (stat_text source_text : List Char) : Option StatRes :=
  let claim_values := extract_key_values stat_text
  if claim_values = [] then
    some ⟨none, 0, [], [], some "no_stats_to_verify".data⟩
  else
    let source_norm := normalizeText source_text
    let source_values := extract_key_values source_text
    let source_metrics := sourceMetricsOf source_values
    let source_ci_bounds := sourceBoundsOf source_values
    let source_p_values := sourcePsOf source_values
    match statScan source_metrics source_ci_bounds source_p_values source_norm claim_values with
    | none => none
    | some pr =>
      let found := dedupFirst pr.1
      let missing := dedupFirst pr.2
      let total := found.length + missing.length
      let score : ℚ := if total > 0 then (found.length : ℚ) / (total : ℚ) else 0
      some ⟨some (decide (score ≥ STAT_MATCH_THRESHOLD)), round2 score, found, missing, none⟩

/-! ## grounding.py — fuzzy quote matching -/

def stopWords : List (List Char) :=
  ["the", "a", "an", "is", "are", "was", "were", "of", "in", "to", "and",
    "for", "with", "that", "this", "by"].map String.data

def joinSpace : List (List Char) → List Char
  | [] => []
  | [w] => w
  | w :: rest => w ++ ' ' :: joinSpace rest

/-- Window contents enumerated by strategy 2 of `_fuzzy_contains`, in
iteration order: window sizes `sub_word_count + (-2..3)` (skipping sizes
below 3 or above the source word count), positions stepping by 2. -/
def windowsOf (words : List (List Char)) (swc : Nat) : List (List Char) :=
  let sizes := ([-2, -1, 0, 1, 2, 3] : List Int).filterMap (fun off =>
    let w := (swc : Int) + off
    if w < 3 || w > (words.length : Int) then none else some w.toNat)
  sizes.flatMap (fun win =>
    ((List.range (words.length - win + 1)).filter (fun i => i % 2 = 0)).map
      (fun i => joinSpace ((words.drop i).take win)))

/-- The window scan: early-return on the first ratio reaching the threshold,
else report whether the best seen ratio reaches it. -/
def windowLoop (qn : List Char) (thr : ℚ) : List (List Char) → ℚ → Bool × ℚ
  | [], best => (decide (best ≥ thr), best)
  | w :: rest, best =>
    let r := ratioSM qn w
    let best := max best r
    if r ≥ thr then (true, r) else windowLoop qn thr rest best

/-- Model of `_fuzzy_contains`. -/
def fuzzy_contains (source substring : List Char)
    (threshold : ℚ := QUOTE_SIMILARITY_THRESHOLD) : Bool × ℚ :=
  let sn := normalizeText source
  let qn := normalizeText substring
  if isSubL qn sn then (true, 1)
  else if qn.length = 0 then (false, 0)
  else
    let content := (splitWs qn).filter
      (fun w => !(stopWords.contains w) && decide (w.length > 2))
    let step1 : Option (Bool × ℚ) × ℚ :=
      if content = [] then (none, 0)
      else
        let wordsFound := (content.filter (fun w => isSubL w sn)).length
        let wr : ℚ := (wordsFound : ℚ) / (content.length : ℚ)
        (if wr ≥ 85/100 then some (true, wr) else none, max 0 wr)
    match step1.1 with
    | some res => res
    | none =>
      windowLoop qn threshold (windowsOf (splitWs sn) (splitWs qn).length) step1.2

/-- Truncation `s[:n] + ("…" if len(s) > n)`. -/
def trunc (n : Nat) (l : List Char) : List Char :=
  pySlice l 0 n ++ (if l.length > n then ['…'] else [])

structure QuoteRes where
  quote : List Char
  grounded : Option Bool
  score : ℚ
  detail : Option (List Char)
deriving DecidableEq, Repr

/-- Model of `_verify_quotes`. -/
def verify_quotes (quotes : List (List Char)) (source_text : List Char) :
    List QuoteRes :=
  quotes.map (fun quote =>
    if quote = [] || (pyStrip quote).length < 10 then
      ⟨quote, none, 0, some "too_short".data⟩
    else
      let pr := fuzzy_contains source_text quote QUOTE_SIMILARITY_THRESHOLD
      ⟨trunc 100 quote, some pr.1, round2 pr.2, none⟩)

end Pipeline


namespace Pipeline

/-! ## grounding.py — validate_grounding

The structured result (`output` dict) is modelled by `SR`, covering the
shapes the validator distinguishes with `isinstance` checks: key findings
are dicts (with `finding` / `statistical_evidence` fields) or bare
strings; safety lists are strings; clinical implications are one string
or a list. The LLM-as-judge call `_verify_claims_with_llm` is an oracle
parameter; its internal failure fallback (all-warning verdicts) is one
possible oracle behaviour. -/

inductive FindingEntry where
  | obj (finding statEv : List Char)
  | str (s : List Char)
deriving DecidableEq, Repr

structure SafetyProfile where
  adverse_events : List (List Char)
  serious_adverse_events : List (List Char)
deriving DecidableEq, Repr

inductive ClinImpl where
  | cstr (s : List Char)
  | clist (xs : List (List Char))
deriving DecidableEq, Repr

structure SR where
  key_findings : List FindingEntry
  supporting_quotes : List (List Char)
  safety_profile : SafetyProfile
  clinical_implications : ClinImpl
deriving DecidableEq, Repr

inductive CType where
  | key_finding | safety_claim | clinical_implication
deriving DecidableEq, Repr

structure LlmClaim where
  text : List Char
  evidence : List Char
  ctype : CType
  index : Nat
deriving DecidableEq, Repr

/-- A raw per-claim verdict as returned by the judge (JSON dict with
optional keys, read with `.get`). -/
structure Verdict where
  grounded : Option Bool
  severity : Option (List Char)
  reason : List Char
deriving DecidableEq, Repr

structure VerdictEntry where
  claim : List Char
  grounded : Option Bool
  severity : List Char
  reason : List Char
deriving DecidableEq, Repr

/-- Statistical-evidence entry of the report details: the finding fields
together with the spread `**stat_check` result. -/
structure StatEntry where
  finding : List Char
  statistical_evidence : List Char
  check : StatRes
deriving DecidableEq, Repr

structure Details where
  key_findings : List VerdictEntry
  safety_claims : List VerdictEntry
  supporting_quotes : List QuoteRes
  statistical_evidence : List StatEntry
deriving DecidableEq, Repr

inductive Status where
  | grounded | partially_grounded | review_needed
deriving DecidableEq, Repr

structure Report where
  overall_score : ℚ
  overall_status : Status
  total_claims : Nat
  grounded_claims : Nat
  warnings : Nat
  errors : Nat
  details : Details
deriving DecidableEq, Repr

/-- Section 1 of `validate_grounding`: walk the key findings, producing the
statistical-evidence entries and the queued LLM claims. `none` propagates
a `_verify_stat_evidence` exception. -/
def findingsScan (source : List Char) : List FindingEntry → Nat →
    Option (List StatEntry × List LlmClaim)
  | [], _ => some ([], [])
  | .obj f ev :: rest, i =>
    let statCheck :=
      if ev ≠ [] then verify_stat_evidence ev source
      else some ⟨none, 0, [], [], some "no_evidence_provided".data⟩
    match statCheck with
    | none => none
    | some sc =>
      (findingsScan source rest (i + 1)).map (fun pr =>
        (⟨trunc 120 f, ev, sc⟩ :: pr.1, ⟨f, ev, .key_finding, i⟩ :: pr.2))
  | .str s :: rest, i =>
    (findingsScan source rest (i + 1)).map (fun pr =>
      (pr.1, ⟨s, [], .key_finding, i⟩ :: pr.2))

/-- Claims appended for the safety profile and clinical implications; the
`index` field is the running length of `claims_for_llm`. -/
def safetyClaims (base : Nat) (sp : SafetyProfile) : List LlmClaim :=
  (sp.adverse_events.enum.map (fun p =>
    LlmClaim.mk ("Adverse event: ".data ++ p.2) [] .safety_claim (base + p.1))) ++
  (sp.serious_adverse_events.enum.map (fun p =>
    LlmClaim.mk ("Serious adverse event: ".data ++ p.2) [] .safety_claim
      (base + sp.adverse_events.length + p.1)))

def implicationClaims (base : Nat) : ClinImpl → List LlmClaim
  | .cstr s => if s ≠ [] then [⟨s, [], .clinical_implication, base⟩] else []
  | .clist xs => xs.enum.map (fun p => ⟨p.2, [], .clinical_implication, base + p.1⟩)

/-- Model of `_verify_claims_with_llm`: no call is made on an empty claim
list; otherwise the judge oracle answers. -/
def verify_claims_with_llm (judge : List LlmClaim → List Verdict)
    (claims : List LlmClaim) : List Verdict :=
  if claims = [] then [] else judge claims

def entryOf (p : LlmClaim × Verdict) : VerdictEntry :=
  ⟨trunc 120 p.1.text, p.2.grounded, p.2.severity.getD "warning".data, p.2.reason⟩

/-- The verdict-counting chain of `validate_grounding` (lines 558-564). -/
def countVerdicts (vs : List VerdictEntry) : Nat × Nat × Nat :=
  vs.foldl
    (fun acc v =>
      if v.severity = "ok".data || v.grounded = some true then
        (acc.1 + 1, acc.2.1, acc.2.2)
      else if v.severity = "warning".data then (acc.1, acc.2.1 + 1, acc.2.2)
      else if v.severity = "error".data || v.grounded = some false then
        (acc.1, acc.2.1, acc.2.2 + 1)
      else acc)
    (0, 0, 0)

def countQuotes (qs : List QuoteRes) : Nat × Nat × Nat :=
  qs.foldl
    (fun acc q =>
      if q.grounded = some true then (acc.1 + 1, acc.2.1, acc.2.2)
      else if q.grounded = some false then (acc.1, acc.2.1, acc.2.2 + 1)
      else (acc.1, acc.2.1 + 1, acc.2.2))
    (0, 0, 0)

/-- Statistical entries add to `grounded`/`errors` and to `total`. -/
def countStats (ss : List StatEntry) : Nat × Nat × Nat :=
  ss.foldl
    (fun acc s =>
      if s.check.grounded = some true then (acc.1 + 1, acc.2.1, acc.2.2 + 1)
      else if s.check.grounded = some false then (acc.1, acc.2.1 + 1, acc.2.2 + 1)
      else acc)
    (0, 0, 0)

/-- Score and status aggregation of `validate_grounding` (lines 583-600):
the status thresholds test the exact ratio; the reported `overall_score`
is the ratio rounded to two decimals. -/
def buildReport (total grounded warnings errors : Nat) (d : Details) : Report :=
  let overall_score : ℚ := if total > 0 then (grounded : ℚ) / (total : ℚ) else 0
  let overall_status :=
    if overall_score ≥ 85/100 && errors = 0 then Status.grounded
    else if overall_score ≥ 6/10 || errors ≤ 1 then Status.partially_grounded
    else Status.review_needed
  ⟨round2 overall_score, overall_status, total, grounded, warnings, errors, d⟩

/-- Model of `validate_grounding`. `none` models a raised exception. -/
def validate_grounding (judge : List LlmClaim → List Verdict) (output : SR)
    (source_text : List Char) (skip_llm : Bool) : Option Report :=
  match findingsScan source_text output.key_findings 0 with
  | none => none
  | some (stat_results, claims1) =>
    let quote_results := verify_quotes output.supporting_quotes source_text
    let claims2 := safetyClaims claims1.length output.safety_profile
    let claims3 := implicationClaims (claims1.length + claims2.length)
      output.clinical_implications
    let claims_for_llm := claims1 ++ claims2 ++ claims3
    let llm_verdicts :=
      if skip_llm then
        claims_for_llm.map (fun _ =>
          Verdict.mk (some true) (some "ok".data) "Accepted after self-correction".data)
      else verify_claims_with_llm judge claims_for_llm
    let paired := claims_for_llm.zip llm_verdicts
    let finding_verdicts := paired.filterMap
      (fun p => if p.1.ctype = .key_finding then some (entryOf p) else none)
    let safety_verdicts := paired.filterMap
      (fun p => if p.1.ctype = .safety_claim then some (entryOf p) else none)
    let all_verdicts := paired.map entryOf
    let cv := countVerdicts all_verdicts
    let cq := countQuotes quote_results
    let cs := countStats stat_results
    let total := all_verdicts.length + quote_results.length + cs.2.2
    let grounded := cv.1 + cq.1 + cs.1
    let warnings := cv.2.1 + cq.2.1
    let errors := cv.2.2 + cq.2.2 + cs.2.1
    some (buildReport total grounded warnings errors
      ⟨finding_verdicts, safety_verdicts, quote_results, stat_results⟩)

end Pipeline

namespace Pipeline

/-! ## grounding.py — self-correction -/

/-- Python-style result type: `exn` models a raised exception. -/
inductive PRes (α : Type) where
  | ok (val : α)
  | exn (msg : List Char)
deriving DecidableEq, Repr

inductive UType where
  | key_finding | safety_claim | supporting_quote | stat_evidence
deriving DecidableEq, Repr

/-- Structured stand-in for the formatted `reason` strings of
`_collect_ungrounded_claims` (they only flow into the correction prompt,
which is consumed by the oracle). -/
inductive Reason where
  | text (s : List Char)
  | quoteScore (q : ℚ)
  | missingVals (xs : List (List Char))
deriving DecidableEq, Repr

structure Ungrounded where
  utype : UType
  index : Nat
  claim : List Char
  reason : Reason
  stat_evidence : Option (List Char)
deriving DecidableEq, Repr

/-- Model of `_collect_ungrounded_claims`. -/
def collect_ungrounded_claims (rep : Report) : List Ungrounded :=
  (rep.details.key_findings.enum.filterMap (fun p =>
    if p.2.grounded = some false || p.2.severity = "error".data then
      some ⟨.key_finding, p.1, p.2.claim, .text p.2.reason, none⟩
    else none)) ++
  (rep.details.safety_claims.enum.filterMap (fun p =>
    if p.2.grounded = some false || p.2.severity = "error".data then
      some ⟨.safety_claim, p.1, p.2.claim, .text p.2.reason, none⟩
    else none)) ++
  (rep.details.supporting_quotes.enum.filterMap (fun p =>
    if p.2.grounded = some false then
      some ⟨.supporting_quote, p.1, p.2.quote, .quoteScore p.2.score, none⟩
    else none)) ++
  (rep.details.statistical_evidence.enum.filterMap (fun p =>
    if p.2.check.grounded = some false then
      some ⟨.stat_evidence, p.1, p.2.finding, .missingVals p.2.check.missing,
        some p.2.statistical_evidence⟩
    else none))

/-- A `corrected_value` from the correction response: a (possibly partial)
dict with the finding fields, or a string. -/
inductive CorrVal where
  | cvObj (finding statEv : Option (List Char))
  | cvStr (s : List Char)
deriving DecidableEq, Repr

/-- One entry of the `corrections` array; `Option` fields model `.get`
defaults. Indices are Python ints (the LLM may return anything). -/
structure Corr where
  error_index : Option Int
  action : Option (List Char)
  original_index : Option Int
  corrected_value : Option CorrVal
deriving DecidableEq, Repr

structure Applied where
  atype : UType
  action : List Char
  original : List Char
  corrected : Option CorrVal
deriving DecidableEq, Repr

structure Removals where
  key_finding : List Int
  safety_claim : List Int
  supporting_quote : List Int
  stat_evidence : List Int
deriving DecidableEq, Repr

def emptyRemovals : Removals := ⟨[], [], [], []⟩

/-- Merge semantics of the `action == "correct"` branch for key findings:
dict-into-dict is `{**old, **new}` on the two schema fields; string into
dict sets `finding`; otherwise the entry is replaced wholesale (a partial
dict is read back later with empty-string defaults). -/
def mergeFinding (old : FindingEntry) (cv : CorrVal) : FindingEntry :=
  match old, cv with
  | .obj f s, .cvObj f? s? => .obj (f?.getD f) (s?.getD s)
  | .obj _ s, .cvStr v => .obj v s
  | .str _, .cvObj f? s? => .obj (f?.getD []) (s?.getD [])
  | .str _, .cvStr v => .str v

/-- One iteration of the correction-application loop (inside the per-claim
`try`; all index accesses below are bounds-checked by the source, so no
exception can escape this loop). -/
def applyOne (ugs : List Ungrounded) (st : SR × List Applied × Removals)
    (corr : Corr) : SR × List Applied × Removals :=
  let errIdx : Int := corr.error_index.getD 0 - 1
  if errIdx < 0 || errIdx ≥ (ugs.length : Int) then st
  else
    match ugs[errIdx.toNat]? with
    | none => st
    | some ug =>
      let sr := st.1
      let applied := st.2.1
      let removals := st.2.2
      let action := corr.action.getD "remove".data
      let oi : Int := corr.original_index.getD (ug.index : Int)
      if action = "correct".data then
        match corr.corrected_value with
        | none => st
        | some cv =>
          match ug.utype with
          | .key_finding =>
            let findings := sr.key_findings
            if 0 ≤ oi && oi < (findings.length : Int) then
              match findings[oi.toNat]? with
              | none => st
              | some old =>
                ({ sr with key_findings := findings.set oi.toNat (mergeFinding old cv) },
                  applied ++ [⟨.key_finding, "corrected".data, ug.claim, some cv⟩],
                  removals)
            else st
          | .supporting_quote =>
            let quotes := sr.supporting_quotes
            match cv with
            | .cvStr v =>
              if 0 ≤ oi && oi < (quotes.length : Int) then
                ({ sr with supporting_quotes := quotes.set oi.toNat v },
                  applied ++ [⟨.supporting_quote, "corrected".data, ug.claim, some cv⟩],
                  removals)
              else st
            | _ => st
          | .safety_claim =>
            let ae := sr.safety_profile.adverse_events
            let sae := sr.safety_profile.serious_adverse_events
            match cv with
            | .cvStr v =>
              if 0 ≤ oi && oi < ((ae.length + sae.length : Nat) : Int) then
                let sp :=
                  if oi < (ae.length : Int) then
                    SafetyProfile.mk (ae.set oi.toNat v) sae
                  else SafetyProfile.mk ae (sae.set (oi.toNat - ae.length) v)
                ({ sr with safety_profile := sp },
                  applied ++ [⟨.safety_claim, "corrected".data, ug.claim, some cv⟩],
                  removals)
              else st
            | _ => st
          | .stat_evidence => st
      else if action = "remove".data then
        let removals :=
          match ug.utype with
          | .key_finding => { removals with key_finding := removals.key_finding ++ [oi] }
          | .safety_claim => { removals with safety_claim := removals.safety_claim ++ [oi] }
          | .supporting_quote =>
            { removals with supporting_quote := removals.supporting_quote ++ [oi] }
          | .stat_evidence => { removals with stat_evidence := removals.stat_evidence ++ [oi] }
        (sr, applied ++ [⟨ug.utype, "removed".data, ug.claim, none⟩], removals)
      else st

/-- Descending insertion sort on ints, the effect of
`sorted(set(indices), reverse=True)` after dedup. -/
def insDescInt (a : Int) : List Int → List Int
  | [] => [a]
  | b :: l => if b ≤ a then a :: b :: l else b :: insDescInt a l

def sortDescInt : List Int → List Int
  | [] => []
  | b :: l => insDescInt b (sortDescInt l)

def pyPopAt (l : List α) (i : Nat) : List α := l.take i ++ l.drop (i + 1)

/-- Bounds-guarded removal used for key findings and quotes
(`if 0 <= idx < len: pop(idx)`). -/
def removeGuarded (l : List α) (idxs : List Int) : List α :=
  idxs.foldl
    (fun acc idx =>
      if 0 ≤ idx && idx < (acc.length : Int) then pyPopAt acc idx.toNat else acc)
    l

/-- Safety-claim removal: `if idx < len(ae): ae.pop(idx)` admits negative
indices (Python `list.pop` indexes from the end; an index below `-len`
raises `IndexError`, which is outside the per-claim `try` and propagates). -/
def removeSafety (ae sae : List (List Char)) (idxs : List Int) :
    PRes (List (List Char) × List (List Char)) :=
  idxs.foldl
    (fun acc idx =>
      match acc with
      | .exn e => .exn e
      | .ok (ae, sae) =>
        if idx < (ae.length : Int) then
          if 0 ≤ idx then .ok (pyPopAt ae idx.toNat, sae)
          else if -(ae.length : Int) ≤ idx then
            .ok (pyPopAt ae ((ae.length : Int) + idx).toNat, sae)
          else .exn "IndexError: pop index out of range".data
        else
          let saeIdx := idx - (ae.length : Int)
          if 0 ≤ saeIdx && saeIdx < (sae.length : Int) then
            .ok (ae, pyPopAt sae saeIdx.toNat)
          else .ok (ae, sae))
    (.ok (ae, sae))

/-- Model of `correct_ungrounded_claims`. The LLM call plus
`json.loads(...)["corrections"]` is the oracle; its `except` branch returns
the input unchanged with no corrections. Corrections are applied to a deep
copy (`corrected`), then removals per category in descending index order. -/
def correct_ungrounded_claims
    (oracle : List Ungrounded → SR → List Char → PRes (List Corr))
    (output : SR) (source_text : List Char) (grounding_result : Report) :
    PRes (SR × List Applied) :=
  let ungrounded := collect_ungrounded_claims grounding_result
  if ungrounded = [] then .ok (output, [])
  else
    match oracle ungrounded output source_text with
    | .exn _ => .ok (output, [])
    | .ok corrections =>
      let st := corrections.foldl (applyOne ungrounded) (output, [], emptyRemovals)
      let sr := st.1
      let applied := st.2.1
      let removals := st.2.2
      let sr := { sr with
        key_findings :=
          removeGuarded sr.key_findings (sortDescInt (dedupFirst removals.key_finding)) }
      match removeSafety sr.safety_profile.adverse_events
          sr.safety_profile.serious_adverse_events
          (sortDescInt (dedupFirst removals.safety_claim)) with
      | .exn e => .exn e
      | .ok (ae, sae) =>
        let sr := { sr with
          safety_profile := ⟨ae, sae⟩,
          supporting_quotes :=
            removeGuarded sr.supporting_quotes
              (sortDescInt (dedupFirst removals.supporting_quote)) }
        .ok (sr, applied)

/-- State-passing form making the frame effect on the caller's `output`
explicit: the first component is the caller's object after the call. The
source reads `output` (for the prompt) and deep-copies it; every write
targets the copy, so the input value is returned untouched. -/
def correct_ungrounded_claims_st
    (oracle : List Ungrounded → SR → List Char → PRes (List Corr))
    (output : SR) (source_text : List Char) (grounding_result : Report) :
    SR × PRes (SR × List Applied) :=
  (output, correct_ungrounded_claims oracle output source_text grounding_result)

end Pipeline

namespace Pipeline

/-! ## aoai.py — figure-to-paper matching -/

structure FigDesc where
  index : Nat
  page : Nat
  caption : List Char
  description : List Char
deriving DecidableEq, Repr

structure FigRef where
  fig_num : Nat
  caption : List Char
  offset : Nat
deriving DecidableEq, Repr

structure MatchedFig where
  label : List Char
  page : Nat
  description : List Char
deriving DecidableEq, Repr

/-- Scanner for `(?:Fig\.?\s*|Figure\s*)(\d+)\s*[.:\s]([^\n]{0,200})`
(case-insensitive). The two alternatives are mutually exclusive at the
digit position, so no cross-branch backtracking arises; in the suffix
`\s*[.:\s]`, when no `.`/`:` follows the whitespace run, the last
whitespace character serves as the class character. -/
def figRefAt (l : List Char) : Option ((Nat × List Char) × List Char) :=
  let afterNum :=
    match dropLitCI "fig".data l with
    | none => none
    | some (_, r1) =>
      let r2 := match r1 with | '.' :: r => r | _ => r1
      let d1 := takeRun isDigitC (skipSpaces r2)
      if d1.1 ≠ [] then some d1
      else
        match dropLitCI "figure".data l with
        | none => none
        | some (_, r1b) =>
          let d2 := takeRun isDigitC (skipSpaces r1b)
          if d2.1 = [] then none else some d2
  match afterNum with
  | none => none
  | some (digits, r3) =>
    let sp := takeRun isPySpace r3
    let afterSep :=
      match sp.2 with
      | c :: r4 =>
        if c = '.' || c = ':' then some r4
        else if sp.1 ≠ [] then some sp.2 else none
      | [] => if sp.1 ≠ [] then some ([] : List Char) else none
    match afterSep with
    | none => none
    | some r5 =>
      let cap := (r5.takeWhile (· ≠ '\n')).take 200
      some ((digitsToNat digits, cap), r5.drop cap.length)

/-- The `re.finditer` driver for figure references, tracking `m.start()`
offsets; the caption snippet is stripped (`m.group(2).strip()`). -/
def figRefIterAux : Nat → Nat → List Char → List FigRef
  | 0, _, _ => []
  | _ + 1, _, [] => []
  | fuel + 1, pos, c :: rest =>
    match figRefAt (c :: rest) with
    | some (g, remaining) =>
      if remaining.length < (c :: rest).length then
        ⟨g.1, pyStrip g.2, pos⟩ ::
          figRefIterAux fuel (pos + ((c :: rest).length - remaining.length)) remaining
      else ⟨g.1, pyStrip g.2, pos⟩ :: figRefIterAux fuel (pos + 1) rest
    | none => figRefIterAux fuel (pos + 1) rest

def extractFigRefs (text : List Char) : List FigRef :=
  figRefIterAux (text.length + 1) 0 text

/-- First-occurrence-per-figure-number dedup of references. -/
def dedupByNum (seen : List Nat) : List FigRef → List FigRef
  | [] => []
  | r :: rest =>
    if seen.contains r.fig_num then dedupByNum seen rest
    else r :: dedupByNum (r.fig_num :: seen) rest

/-- Python key order `(page, index)` for images. -/
def imgLe (a b : FigDesc) : Prop :=
  a.page < b.page ∨ (a.page = b.page ∧ a.index ≤ b.index)

instance : DecidableRel imgLe := fun a b => inferInstanceAs (Decidable (_ ∨ _))

instance : IsTotal FigDesc imgLe := by
  constructor
  intro a b
  rcases Nat.lt_trichotomy a.page b.page with h | h | h
  · exact Or.inl (Or.inl h)
  · rcases Nat.le_total a.index b.index with h2 | h2
    · exact Or.inl (Or.inr ⟨h, h2⟩)
    · exact Or.inr (Or.inr ⟨h.symm, h2⟩)
  · exact Or.inr (Or.inl h)

instance : IsTrans FigDesc imgLe := by
  constructor
  intro a b c hab hbc
  rcases hab with h | ⟨he, hi⟩
  · rcases hbc with h2 | ⟨he2, _⟩
    · exact Or.inl (h.trans h2)
    · exact Or.inl (he2 ▸ h)
  · rcases hbc with h2 | ⟨he2, hi2⟩
    · exact Or.inl (he ▸ h2)
    · exact Or.inr ⟨he.trans he2, hi.trans hi2⟩

/-- Key order by figure number for references. -/
def refLe (a b : FigRef) : Prop := a.fig_num ≤ b.fig_num

instance : DecidableRel refLe := fun a b => Nat.decLe _ _

instance : IsTotal FigRef refLe := ⟨fun a b => Nat.le_total _ _⟩

instance : IsTrans FigRef refLe := ⟨fun _ _ _ h h2 => Nat.le_trans h h2⟩

/-- Generic stable insertion sort on a boolean relation (used where the
source sorts with Python `sorted`/`list.sort` and no order lemmas are
needed). -/
def insLeB (le : α → α → Bool) (a : α) : List α → List α
  | [] => [a]
  | b :: l => if le a b then a :: b :: l else b :: insLeB le a l

def sortLeB (le : α → α → Bool) : List α → List α
  | [] => []
  | b :: l => insLeB le b (sortLeB le l)

/-- Maximal runs of word characters (`\w`, ASCII) of length at least 4:
the effect of `re.findall(r'\b\w{4,}\b', s)`, deduplicated by `set()`. -/
def isWordChar (c : Char) : Bool := c.isAlphanum || c = '_'

def wordRunsAux : List Char → List Char → List (List Char)
  | [], acc => if acc = [] then [] else [acc.reverse]
  | c :: rest, acc =>
    if isWordChar c then wordRunsAux rest (c :: acc)
    else if acc = [] then wordRunsAux rest [] else acc.reverse :: wordRunsAux rest []

def termsOf (l : List Char) : List (List Char) :=
  dedupFirst ((wordRunsAux l []).filter (fun w => w.length ≥ 4))

def specificKeywords : List (List Char × ℚ) :=
  [("prisma", (2 : ℚ)), ("flowchart", 3/2), ("flow diagram", 3/2),
    ("forest plot", 3/2), ("funnel plot", 1), ("overall survival", 2),
    ("progression", 2), ("toxicit", 2), ("hematolog", 2), ("bias", 2),
    ("cochrane", 3/2), ("risk of bias", 2)].map (fun p => (p.1.data, p.2))

/-- Model of `_match_score` (fallback path), on exact rationals. -/
def match_score (img : FigDesc) (ref : FigRef) (est_page : ℤ) : ℚ :=
  let pageDist := ((img.page : ℤ) - est_page).natAbs
  let base : ℚ := if pageDist = 0 then 3 else if pageDist = 1 then 3/2 else 1/10
  let capL := ref.caption.map Char.toLower
  let descL := img.description.map Char.toLower
  let capTerms := termsOf capL
  let descTerms := termsOf descL
  let overlapScore : ℚ :=
    if capTerms = [] then 0
    else ((capTerms.filter (fun t => descTerms.contains t)).length : ℚ) * (1/2)
  let bonus := specificKeywords.foldl
    (fun acc kw => if isSubL kw.1 capL && isSubL kw.1 descL then acc + kw.2 else acc) 0
  base + overlapScore + bonus

/-- Greedy best-pair assignment over score-sorted (image, reference) pairs. -/
def greedyAssign : List (Nat × Nat × ℚ) → List Nat → List Nat →
    List (Nat × Nat) → List (Nat × Nat)
  | [], _, _, acc => acc
  | (i, j, _) :: rest, usedI, usedJ, acc =>
    if usedI.contains i || usedJ.contains j then greedyAssign rest usedI usedJ acc
    else greedyAssign rest (i :: usedI) (j :: usedJ) (acc ++ [(i, j)])

/-- Fallback content-similarity matching when counts differ. -/
def matchFallback (text : List Char) (figure_descriptions : List FigDesc)
    (sorted_images : List FigDesc) (sorted_refs : List FigRef) : List MatchedFig :=
  let total_len : Nat := max text.length 1
  let max_page : Nat := (figure_descriptions.map (·.page)).foldl max 0
  let estOf := fun (r : FigRef) =>
    max 1 (pyRound ((r.offset : ℚ) / (total_len : ℚ) * (max_page : ℚ)))
  let scores := sorted_images.enum.flatMap (fun pi =>
    sorted_refs.enum.map (fun pj => (pi.1, pj.1, match_score pi.2 pj.2 (estOf pj.2))))
  let scoresSorted := sortLeB (fun a b => decide (b.2.2 ≤ a.2.2)) scores
  let assignments := greedyAssign scoresSorted [] [] []
  sorted_images.enum.map (fun pi =>
    match assignments.find? (fun pr => pr.1 = pi.1) with
    | some pr =>
      match sorted_refs[pr.2]? with
      | some ref =>
        MatchedFig.mk ("Fig. ".data ++ (toString ref.fig_num).data) pi.2.page pi.2.description
      | none =>
        MatchedFig.mk ("Image from Page ".data ++ (toString pi.2.page).data)
          pi.2.page pi.2.description
    | none =>
      MatchedFig.mk ("Image from Page ".data ++ (toString pi.2.page).data)
        pi.2.page pi.2.description)

/-- Model of `_match_figures_to_paper`. -/
def match_figures_to_paper (text : List Char) (figure_descriptions : List FigDesc) :
    List MatchedFig :=
  if figure_descriptions = [] then []
  else
    let unique_refs := dedupByNum [] (extractFigRefs text)
    if unique_refs = [] then
      figure_descriptions.map (fun fd =>
        MatchedFig.mk ("Image from Page ".data ++ (toString fd.page).data) fd.page
          fd.description)
    else
      let sorted_images := List.insertionSort imgLe figure_descriptions
      let sorted_refs := List.insertionSort refLe unique_refs
      if sorted_images.length = sorted_refs.length then
        List.zipWith
          (fun img ref =>
            MatchedFig.mk ("Fig. ".data ++ (toString ref.fig_num).data) img.page
              img.description)
          sorted_images sorted_refs
      else matchFallback text figure_descriptions sorted_images sorted_refs

end Pipeline


namespace Pipeline

/-! ## aoai.py — chunking -/

structure Chunk where
  heading : List Char
  content : List Char
deriving DecidableEq, Repr

structure Sec where
  heading : List Char
  offset : Option Nat
deriving DecidableEq, Repr

structure SecO where
  heading : List Char
  off : Nat
deriving DecidableEq, Repr

def secLe (a b : SecO) : Prop := a.off ≤ b.off

instance : DecidableRel secLe := fun a b => Nat.decLe _ _

instance : IsTotal SecO secLe := ⟨fun a b => Nat.le_total _ _⟩

instance : IsTrans SecO secLe := ⟨fun _ _ _ h h2 => Nat.le_trans h h2⟩

/-- The configured maximum chunk budget defaults to 30000
(`MAX_CHUNK_CHARS` env variable); the chunking functions take it as a
parameter. -/
def MAX_CHUNK_CHARS_DEFAULT : Nat := 30000

/-- Model of `_chunk_by_size`; a zero budget would make Python `range`
raise, so the model is stated for positive budgets (the guard returns `[]`). -/
def chunkBySizeAux (maxC : Nat) : Nat → Nat → List Char → List Chunk
  | 0, _, _ => []
  | _ + 1, _, [] => []
  | fuel + 1, k, l =>
    Chunk.mk ("Part ".data ++ (toString k).data) (l.take maxC) ::
      chunkBySizeAux maxC fuel (k + 1) (l.drop maxC)

def chunk_by_size (maxC : Nat) (text : List Char) : List Chunk :=
  if maxC = 0 then [] else chunkBySizeAux maxC (text.length + 1) 1 text

def nl2 : List Char := ['\n', '\n']

/-- Model of `_merge_small_chunks` (buffer/flush fold). -/
def merge_small_chunks_aux (maxC : Nat) :
    List Chunk → List Char → List Char → List Chunk
  | [], bh, bc => if bc ≠ [] then [Chunk.mk bh (pyStrip bc)] else []
  | c :: rest, bh, bc =>
    if bc.length + c.content.length < maxC then
      merge_small_chunks_aux maxC rest
        (if bh ≠ [] then bh ++ " + ".data ++ c.heading else c.heading)
        (bc ++ nl2 ++ c.content)
    else
      (if bc ≠ [] then [Chunk.mk bh (pyStrip bc)] else []) ++
        merge_small_chunks_aux maxC rest c.heading c.content

def merge_small_chunks (maxC : Nat) (chunks : List Chunk) : List Chunk :=
  merge_small_chunks_aux maxC chunks [] []

/-- One chunk per sorted section, spanning to the next section offset
(or the end of text); empty stripped contents are dropped. -/
def secChunks (text : List Char) : List SecO → List Chunk
  | [] => []
  | s :: rest =>
    let e := match rest with | [] => text.length | t :: _ => t.off
    let content := pyStrip (pySlice text s.off e)
    (if content ≠ [] then [Chunk.mk s.heading content] else []) ++ secChunks text rest

/-- The merge input of the section-based path (preamble plus per-section
chunks), or `none` when `split_into_sections` falls back to fixed-size
slicing (fewer than two sections, or none with a known offset). -/
def sectionChunksOf (text : List Char) (sections : List Sec) : Option (List Chunk) :=
  if sections.length < 2 then none
  else
    let withOff := sections.filterMap (fun s => s.offset.map (fun o => SecO.mk s.heading o))
    let sorted := List.insertionSort secLe withOff
    match sorted with
    | [] => none
    | first :: _ =>
      let pre :=
        if first.off > 0 then
          let p := pyStrip (text.take first.off)
          if p ≠ [] then [Chunk.mk "Preamble / Title".data p] else []
        else []
      some (pre ++ secChunks text sorted)

/-- Model of `split_into_sections`. -/
def split_into_sections (maxC : Nat) (text : List Char) (sections : List Sec) :
    List Chunk :=
  match sectionChunksOf text sections with
  | none => chunk_by_size maxC text
  | some cs => merge_small_chunks maxC cs

end Pipeline


namespace Pipeline

/-! ## json_safe.py and the orchestrator

`json.loads` is standard-library code consumed as a black box; it is an
oracle parameter `loads`. The fallback extraction logic of
`safe_parse_json` is modelled from the source. -/

inductive Json where
  | null
  | bool (b : Bool)
  | num (q : ℚ)
  | str (s : List Char)
  | arr (xs : List Json)
  | obj (fields : List (List Char × Json))

/-- Python truthiness of a parsed JSON value (`if chunk_result["parsed"]:`). -/
def jsonTruthy : Json → Bool
  | .null => false
  | .bool b => b
  | .num q => q ≠ 0
  | .str s => s ≠ []
  | .arr [] => false
  | .arr (_ :: _) => true
  | .obj [] => false
  | .obj (_ :: _) => true

def btick : Char := Char.ofNat 96
def braceL : Char := Char.ofNat 123
def braceR : Char := Char.ofNat 125
def apos : Char := Char.ofNat 39

def fence : List Char := [btick, btick, btick]

/-- Split at the first occurrence of `pat`: `(before, after_pat)`. -/
def splitFirstAux (pat : List Char) : Nat → List Char → Option (List Char × List Char)
  | 0, _ => none
  | _ + 1, [] => if startsL pat [] then some ([], []) else none
  | fuel + 1, c :: rest =>
    if startsL pat (c :: rest) then some ([], (c :: rest).drop pat.length)
    else (splitFirstAux pat fuel rest).map (fun pr => (c :: pr.1, pr.2))

def splitFirst (pat l : List Char) : Option (List Char × List Char) :=
  splitFirstAux pat (l.length + 1) l

/-- Fenced-block extraction `LEAD\s*(.*?)\s*FENCE` with `re.DOTALL`: the
region between the first occurrence of the lead and the next fence,
trimmed of surrounding whitespace (the greedy `\s*` and the lazy group
make the match exactly this, see the source pattern list). -/
def fencedGroup (lead : List Char) (raw : List Char) : Option (List Char) :=
  match splitFirst lead raw with
  | none => none
  | some (_, rest) => (splitFirst fence rest).map (fun pr => pyStrip pr.1)

/-- Brace extraction `(\{.*\})` with `re.DOTALL`: from the first opening
brace through the last closing brace after it. -/
def braceGroup (raw : List Char) : Option (List Char) :=
  let pfx := raw.takeWhile (· ≠ braceL)
  if pfx.length = raw.length then none
  else
    let fromBrace := raw.drop pfx.length
    let tailLen := (fromBrace.reverse.takeWhile (· ≠ braceR)).length
    if tailLen = fromBrace.length then none
    else
      let q := fromBrace.length - tailLen - 1
      if q = 0 then none else some (fromBrace.take (q + 1))

/-- Ordered fallback chain of `safe_parse_json`. -/
def tryLoadChain (loads : List Char → Option Json) :
    List (Option (List Char)) → Option Json
  | [] => none
  | none :: rest => tryLoadChain loads rest
  | some s :: rest =>
    match loads s with
    | some v => some v
    | none => tryLoadChain loads rest

/-- Model of `safe_parse_json`. -/
def safe_parse_json (loads : List Char → Option Json) (raw : List Char) :
    Option Json :=
  match loads raw with
  | some v => some v
  | none =>
    tryLoadChain loads
      [fencedGroup (fence ++ "json".data) raw, fencedGroup fence raw, braceGroup raw]

/-! ## aoai.py — vision figure description and the orchestrator -/

structure FigImage where
  index : Nat
  page : Nat
  caption : List Char
  image_base64 : List Char
deriving DecidableEq, Repr

/-- Model of `_describe_single_figure`. The whole vision call sits inside
`try/except`; the handler returns a substituted description dict, so the
function never propagates the failure (its result is always `ok`). -/
def describe_single_figure (visionCall : FigImage → PRes (List Char))
    (fig : FigImage) : PRes (Option FigDesc) :=
  if fig.image_base64 = [] then .ok none
  else
    match visionCall fig with
    | .ok description =>
      if isSubL "NOT_A_FIGURE".data description then .ok none
      else .ok (some ⟨fig.index, fig.page, fig.caption, description⟩)
    | .exn e =>
      .ok (some ⟨fig.index, fig.page, fig.caption,
        "[Figure analysis failed: ".data ++ e ++ "]".data⟩)

structure ParseResu where
  parsed : Option Json
  raw : List Char

/-- A chunk output queued for synthesis (`{"section": ..., "output": ...}`). -/
structure ChunkOut where
  sectionName : List Char
  output : Json

def placeholderSchema : List Char := braceL :: "schema_json".data ++ [braceR]
def placeholderText : List Char := braceL :: "text".data ++ [braceR]

/-- Model of `_process_single_chunk`; no `try` around the LLM call, so an
upstream exception propagates. -/
def process_single_chunk (loads : List Char → Option Json)
    (call : List Char → PRes (List Char))
    (prompt_template schema_json text chunk_context : List Char) : PRes ParseResu :=
  let user_message :=
    replaceAllL (replaceAllL prompt_template placeholderSchema schema_json)
      placeholderText text
  let user_message :=
    if chunk_context ≠ [] then chunk_context ++ nl2 ++ user_message else user_message
  match call user_message with
  | .exn e => .exn e
  | .ok raw => .ok ⟨safe_parse_json loads raw, raw⟩

/-- Model of `_synthesize_outputs`: the synthesis prompt is a fixed
template around `schema_json` and `json.dumps(chunk_outputs)`, so the
call oracle receives exactly those inputs; no `try`, exceptions propagate. -/
def synthesize_outputs (loads : List Char → Option Json)
    (synthCall : List Char → List ChunkOut → PRes (List Char))
    (schema_json : List Char) (chunk_outputs : List ChunkOut) : PRes ParseResu :=
  match synthCall schema_json chunk_outputs with
  | .exn e => .exn e
  | .ok raw => .ok ⟨safe_parse_json loads raw, raw⟩

/-- Context line prepended to each chunk prompt. -/
def chunkContext (heading : List Char) (i n : Nat) : List Char :=
  "This is section ".data ++ [apos] ++ pySlice heading 0 50 ++ [apos] ++ " (part ".data ++
    (toString (i + 1)).data ++ " of ".data ++ (toString n).data ++
    " from the full paper).".data

def eq60 : List Char := List.replicate 60 '='

/-- The appended vision-analysis block for matched figures. -/
def visionBlock (matched : List MatchedFig) : List Char :=
  nl2 ++ eq60 ++ ['\n'] ++ "AI VISION ANALYSIS OF FIGURES IN THIS PAPER\n".data ++
    eq60 ++ nl2 ++
    (matched.map (fun m =>
      "### ".data ++ m.label ++ " (PDF Page ".data ++ (toString m.page).data ++
        ")\n".data ++ "Description: ".data ++ m.description ++ nl2)).flatten

def coKey (cs : List Chunk) (c : ChunkOut) : Nat :=
  (cs.findIdx? (fun ch => ch.heading = c.sectionName)).getD 0

/-- Model of `_generate_with_chunking`, instrumented with the number of
per-chunk LLM calls and synthesis calls issued. The parallel fan-out is
modelled sequentially in chunk order (each call is independent; the
fan-in re-sorts by original chunk position, and which of several failed
futures raises first is nondeterministic in Python — the model propagates
the first in chunk order). -/
def generate_with_chunking (loads : List Char → Option Json)
    (chunkCall : List Char → PRes (List Char))
    (synthCall : List Char → List ChunkOut → PRes (List Char)) (maxC : Nat)
    (prompt_template schema_json text : List Char) (sections : List Sec)
    (figure_descriptions : List FigDesc) : PRes ParseResu × Nat × Nat :=
  let matched_fds := match_figures_to_paper text figure_descriptions
  let enriched := if matched_fds ≠ [] then text ++ visionBlock matched_fds else text
  let chunks := split_into_sections maxC enriched sections
  match chunks with
  | [c] =>
    (process_single_chunk loads chunkCall prompt_template schema_json c.content [], 1, 0)
  | cs =>
    let n := cs.length
    let step := cs.enum.foldl
      (fun acc p =>
        match acc with
        | PRes.exn e => PRes.exn e
        | PRes.ok outs =>
          match process_single_chunk loads chunkCall prompt_template schema_json
              p.2.content (chunkContext p.2.heading p.1 n) with
          | .exn e => .exn e
          | .ok r =>
            match r.parsed with
            | some v =>
              if jsonTruthy v then .ok (outs ++ [ChunkOut.mk p.2.heading v]) else .ok outs
            | none => .ok outs)
      (PRes.ok ([] : List ChunkOut))
    match step with
    | .exn e => (.exn e, n, 0)
    | .ok outs =>
      let sorted := sortLeB (fun a b => decide (coKey cs a ≤ coKey cs b)) outs
      (synthesize_outputs loads synthCall schema_json sorted, n, 1)

end Pipeline

namespace Pipeline

/-! ## workflow_runner.py — grounding validation with self-correction -/

def MAX_CORRECTION_ROUNDS : Nat := 1

structure FinalReport where
  report : Report
  corrections_applied : List Applied
  correction_rounds : Nat
deriving DecidableEq, Repr

/-- The `while` loop of `run_workflow` step 3. The fuel is
`MAX_CORRECTION_ROUNDS - correction_round`, so the loop guard
`correction_round < MAX_CORRECTION_ROUNDS` is `fuel > 0`. The last two
results are the number of correction calls and of fast re-validations
performed. -/
def correctionLoopAux (judge : List LlmClaim → List Verdict)
    (corrOracle : List Ungrounded → SR → List Char → PRes (List Corr))
    (input_text : List Char) :
    Nat → Nat → SR → Report → List Applied →
    Nat → Nat → PRes (SR × Report × List Applied × Nat) × Nat × Nat
  | 0, round, p, g, acc, cc, fv => (.ok (p, g, acc, round), cc, fv)
  | fuel + 1, round, p, g, acc, cc, fv =>
    if g.errors = 0 then (.ok (p, g, acc, round), cc, fv)
    else
      match correct_ungrounded_claims corrOracle p input_text g with
      | .exn e => (.exn e, cc + 1, fv)
      | .ok (corrected, applied) =>
        if applied = [] then (.ok (p, g, acc, round + 1), cc + 1, fv)
        else
          match validate_grounding judge corrected input_text true with
          | none => (.exn "validation raised".data, cc + 1, fv + 1)
          | some g2 =>
            correctionLoopAux judge corrOracle input_text fuel (round + 1) corrected g2
              (acc ++ applied) (cc + 1) (fv + 1)

/-- Step 3 of `run_workflow` for a successfully parsed structured result:
full validation, the bounded self-correction loop, and attachment of the
correction metadata. Instrumented with (correction calls, fast
re-validations). -/
def run_workflow_step3 (judge : List LlmClaim → List Verdict)
    (corrOracle : List Ungrounded → SR → List Char → PRes (List Corr))
    (input_text : List Char) (parsed : SR) :
    PRes (SR × FinalReport) × Nat × Nat :=
  match validate_grounding judge parsed input_text false with
  | none => (.exn "validation raised".data, 0, 0)
  | some g0 =>
    match correctionLoopAux judge corrOracle input_text MAX_CORRECTION_ROUNDS 0 parsed g0
        [] 0 0 with
    | (.exn e, cc, fv) => (.exn e, cc, fv)
    | (.ok (p, g, acc, round), cc, fv) =>
      (.ok (p, ⟨g, acc, if acc ≠ [] then round else 0⟩), cc, fv)

end Pipeline

namespace Pipeline

/-! ## Spec-side definitions

These two definitions follow the wording of the specification (not the
source) and exist only to be compared against the source-derived
definitions above. -/

/-- Spec reading of the statistical layer: the fraction of the claim's
extracted values found among the source text's equivalently-extracted
values, where a claimed p-value with operator `<`/`<=` counts as found
when some source p-value is numerically at most the claimed threshold. -/
def specStatFraction (stat_text source_text : List Char) : ℚ :=
  let claim_values := extract_key_values stat_text
  let source_values := extract_key_values source_text
  let bounds := sourceBoundsOf source_values
  let spv := sourcePsOf source_values
  let foundB : KeyValue → Bool := fun cv =>
    match cv with
    | .metric n v => source_values.contains (.metric n v)
    | .ci l h => bounds.contains l && bounds.contains h
    | .ciBracket l h => bounds.contains l && bounds.contains h
    | .pvalue op v =>
      spv.any (fun sp =>
        match parseDecimal sp, parseDecimal v with
        | some spq, some cpq =>
          if op = "<".data || op = "<=".data then decide (spq ≤ cpq) else sp = v
        | _, _ => sp = v)
    | .percent v => source_values.contains (.percent v)
    | .nValue v => source_values.contains (.nValue v)
    | .duration v u => source_values.contains (.duration v u)
    | .dosage v u => source_values.contains (.dosage v u)
  if claim_values.length = 0 then 0
  else ((claim_values.filter foundB).length : ℚ) / (claim_values.length : ℚ)

/-- Spec reading of the quote score: the maximum similarity ratio across
the three strategies — exact containment (1.0), content-word coverage,
and the sliding-window ratios over all enumerated window sizes and
positions. -/
def specMaxRatioAllStrategies (source substring : List Char) : ℚ :=
  let sn := normalizeText source
  let qn := normalizeText substring
  let exact : ℚ := if isSubL qn sn then 1 else 0
  let content := (splitWs qn).filter
    (fun w => !(stopWords.contains w) && decide (w.length > 2))
  let wordCover : ℚ :=
    if content = [] then 0
    else ((content.filter (fun w => isSubL w sn)).length : ℚ) / (content.length : ℚ)
  let windowMax : ℚ := (windowsOf (splitWs sn) (splitWs qn).length).foldl
    (fun acc w => max acc (ratioSM qn w)) 0
  max exact (max wordCover windowMax)

end Pipeline


namespace Pipeline

/-! ## Theorems for the claims -/

attribute [local semireducible] Rat.mul Rat.add Rat.sub Rat.inv

def roundsOf : PRes (SR × FinalReport) → Nat
  | .ok pr => pr.2.correction_rounds
  | .exn _ => 0

/-- C4: with `MAX_CORRECTION_ROUNDS = 1`, every run of the workflow's
self-correction controller performs at most one correction call and at
most one fast (skip-LLM) re-validation, whatever the judge, correction
oracle, input and parsed result; and the `correction_rounds` field of the
final grounding report never exceeds 1. -/
theorem c4_correction_bound (judge : List LlmClaim → List Verdict)
    (corrOracle : List Ungrounded → SR → List Char → PRes (List Corr))
    (input_text : List Char) (parsed : SR) :
    (run_workflow_step3 judge corrOracle input_text parsed).2.1 ≤ 1 ∧
    (run_workflow_step3 judge corrOracle input_text parsed).2.2 ≤ 1 ∧
    roundsOf (run_workflow_step3 judge corrOracle input_text parsed).1 ≤ 1 := by
  unfold run_workflow_step3
  cases h0 : validate_grounding judge parsed input_text false with
  | none => exact ⟨by simp, by simp, by simp [roundsOf]⟩
  | some g0 =>
    dsimp only
    have hM : MAX_CORRECTION_ROUNDS = 0 + 1 := rfl
    rw [hM]
    unfold correctionLoopAux
    by_cases he : g0.errors = 0
    · simp [he, roundsOf]
    · simp only [he, if_false]
      cases hc : correct_ungrounded_claims corrOracle parsed input_text g0 with
      | exn e => simp [roundsOf]
      | ok pr =>
        obtain ⟨corrected, applied⟩ := pr
        by_cases ha : applied = []
        · simp [ha, roundsOf]
        · simp only [ha, if_false]
          cases hv : validate_grounding judge corrected input_text true with
          | none => simp [roundsOf]
          | some g2 =>
            unfold correctionLoopAux
            by_cases hacc : applied = [] <;> simp [roundsOf, hacc]

/-- C6 counterexample: an upstream vision failure is caught inside
`_describe_single_figure` and replaced by a substituted description — it
is not propagated to the caller, refuting the claim that no component
continues with a locally-substituted result. -/
theorem c6_counterexample :
    describe_single_figure (fun _ => .exn "boom".data) ⟨3, 2, "cap".data, "img".data⟩ =
      .ok (some ⟨3, 2, "cap".data, "[Figure analysis failed: boom]".data⟩) := by decide

/-- C6 amended: chunk extraction and synthesis propagate an upstream
exception unchanged (no retry, no substitution); the vision component
catches it and substitutes a bracketed failure description; the
correction step catches it and returns the input unchanged with an empty
corrections list. -/
theorem c6_amended :
    (∀ (loads : List Char → Option Json) (call : List Char → PRes (List Char))
      (prompt schema text ctx e : List Char), (∀ msg, call msg = .exn e) →
      process_single_chunk loads call prompt schema text ctx = .exn e) ∧
    (∀ (loads : List Char → Option Json)
      (synthCall : List Char → List ChunkOut → PRes (List Char))
      (schema : List Char) (outs : List ChunkOut) (e : List Char),
      (∀ a b, synthCall a b = .exn e) →
      synthesize_outputs loads synthCall schema outs = .exn e) ∧
    (∀ (visionCall : FigImage → PRes (List Char)) (fig : FigImage) (e : List Char),
      fig.image_base64 ≠ [] → (∀ f, visionCall f = .exn e) →
      describe_single_figure visionCall fig =
        .ok (some ⟨fig.index, fig.page, fig.caption,
          "[Figure analysis failed: ".data ++ e ++ "]".data⟩)) ∧
    (∀ (oracle : List Ungrounded → SR → List Char → PRes (List Corr)) (output : SR)
      (source : List Char) (rep : Report) (e : List Char),
      (∀ a b c, oracle a b c = .exn e) →
      correct_ungrounded_claims oracle output source rep = .ok (output, [])) := by
  refine ⟨?_, ?_, ?_, ?_⟩
  · intro loads call prompt schema text ctx e h
    simp [process_single_chunk, h]
  · intro loads synthCall schema outs e h
    simp [synthesize_outputs, h]
  · intro visionCall fig e hb h
    simp [describe_single_figure, hb, h]
  · intro oracle output source rep e h
    unfold correct_ungrounded_claims
    by_cases hu : collect_ungrounded_claims rep = []
    · simp [hu]
    · simp [hu, h]

/-- C6 witness: the amended theorem applied at concrete failing oracles. -/
theorem c6_amended_witness :
    process_single_chunk (fun _ => none) (fun _ => .exn "boom".data)
        "p".data "s".data "t".data [] = .exn "boom".data ∧
    synthesize_outputs (fun _ => none) (fun _ _ => .exn "boom".data) "s".data [] =
      .exn "boom".data ∧
    describe_single_figure (fun _ => .exn "boom".data) ⟨0, 1, [], ['x']⟩ =
      .ok (some ⟨0, 1, [], "[Figure analysis failed: boom]".data⟩) ∧
    correct_ungrounded_claims (fun _ _ _ => .exn "boom".data)
        ⟨[], [], ⟨[], []⟩, .cstr []⟩ [] ⟨0, .grounded, 0, 0, 0, 0, ⟨[], [], [], []⟩⟩ =
      .ok (⟨[], [], ⟨[], []⟩, .cstr []⟩, []) :=
  ⟨c6_amended.1 _ _ _ _ _ _ _ (fun _ => rfl),
    c6_amended.2.1 _ _ _ _ _ (fun _ _ => rfl),
    c6_amended.2.2.1 _ ⟨0, 1, [], ['x']⟩ _ (by decide) (fun _ => rfl),
    c6_amended.2.2.2 _ _ _ _ _ (fun _ _ _ => rfl)⟩

/-- C10: `correct_ungrounded_claims` leaves the caller's structured result
untouched (state-passing form returns it unchanged), and when the
correction LLM call raises, the function returns the original input with
an empty corrections list. -/
theorem c10_no_mutation
    (oracle : List Ungrounded → SR → List Char → PRes (List Corr)) (output : SR)
    (source : List Char) (rep : Report) :
    (correct_ungrounded_claims_st oracle output source rep).1 = output ∧
    (∀ e, oracle (collect_ungrounded_claims rep) output source = .exn e →
      correct_ungrounded_claims oracle output source rep = .ok (output, [])) := by
  refine ⟨rfl, ?_⟩
  intro e h
  unfold correct_ungrounded_claims
  by_cases hu : collect_ungrounded_claims rep = []
  · simp [hu]
  · simp [hu, h]

/-- C10 witness: the theorem applied at a failing oracle on a report with
one failed claim. -/
theorem c10_no_mutation_witness :
    (correct_ungrounded_claims_st (fun _ _ _ => .exn "down".data)
        ⟨[.str "f".data], ["q".data], ⟨[], []⟩, .cstr []⟩ "src".data
        ⟨0, .review_needed, 1, 0, 0, 1,
          ⟨[⟨"f".data, some false, "error".data, "r".data⟩], [], [], []⟩⟩).1 =
      ⟨[.str "f".data], ["q".data], ⟨[], []⟩, .cstr []⟩ ∧
    correct_ungrounded_claims (fun _ _ _ => .exn "down".data)
        ⟨[.str "f".data], ["q".data], ⟨[], []⟩, .cstr []⟩ "src".data
        ⟨0, .review_needed, 1, 0, 0, 1,
          ⟨[⟨"f".data, some false, "error".data, "r".data⟩], [], [], []⟩⟩ =
      .ok (⟨[.str "f".data], ["q".data], ⟨[], []⟩, .cstr []⟩, []) :=
  ⟨(c10_no_mutation _ _ _ _).1, (c10_no_mutation _ _ _ _).2 "down".data rfl⟩

end Pipeline

namespace Pipeline

attribute [local semireducible] Rat.mul Rat.add Rat.sub Rat.inv

set_option maxRecDepth 40000

/-- C7: when a grounding report contains no failed claim (no verdict with
`grounded=False` or `severity=error` among key findings and safety claims,
no quote with `grounded=False`, no statistical entry with
`grounded=False`), the correction step applies zero corrections and
returns the structured result unchanged, for any oracle. -/
theorem c7_clean_report_identity
    (oracle : List Ungrounded → SR → List Char → PRes (List Corr)) (output : SR)
    (source : List Char) (rep : Report)
    (h1 : ∀ v ∈ rep.details.key_findings,
      v.grounded ≠ some false ∧ v.severity ≠ "error".data)
    (h2 : ∀ v ∈ rep.details.safety_claims,
      v.grounded ≠ some false ∧ v.severity ≠ "error".data)
    (h3 : ∀ q ∈ rep.details.supporting_quotes, q.grounded ≠ some false)
    (h4 : ∀ s ∈ rep.details.statistical_evidence, s.check.grounded ≠ some false) :
    correct_ungrounded_claims oracle output source rep = .ok (output, []) := by
  have hcol : collect_ungrounded_claims rep = [] := by
    unfold collect_ungrounded_claims
    simp only [List.append_eq_nil]
    refine ⟨⟨⟨?_, ?_⟩, ?_⟩, ?_⟩ <;> rw [List.filterMap_eq_nil_iff] <;> intro a ha
    · have hv := h1 a.2 (List.get?_mem (List.mem_enum_iff_get?.mp ha))
      simp [hv.1, hv.2]
    · have hv := h2 a.2 (List.get?_mem (List.mem_enum_iff_get?.mp ha))
      simp [hv.1, hv.2]
    · have hv := h3 a.2 (List.get?_mem (List.mem_enum_iff_get?.mp ha))
      simp [hv]
    · have hv := h4 a.2 (List.get?_mem (List.mem_enum_iff_get?.mp ha))
      simp [hv]
  unfold correct_ungrounded_claims
  simp [hcol]

/-- C7 witness: the theorem applied to a concrete report whose verdicts
are all non-failing. -/
theorem c7_clean_report_identity_witness :
    correct_ungrounded_claims (fun _ _ _ => .exn "never".data)
        ⟨[.obj "f".data "HR=1".data], ["quote one".data], ⟨["ae".data], []⟩, .cstr []⟩
        "src".data
        ⟨1, .grounded, 2, 2, 0, 0,
          ⟨[⟨"f".data, some true, "ok".data, [] ⟩], [], [⟨"quote one".data, some true, 1, none⟩],
            [⟨"f".data, "HR=1".data, ⟨some true, 1, ["HR=1".data], [], none⟩⟩]⟩⟩ =
      .ok (⟨[.obj "f".data "HR=1".data], ["quote one".data], ⟨["ae".data], []⟩, .cstr []⟩, []) :=
  c7_clean_report_identity _ _ _ _ (by decide) (by decide) (by decide) (by decide)

/-- C1 counterexample: for evidence `"50%"` against source `"n=1500"`, the
code reports `grounded=True` (the percent value 50 is found as a raw
substring of `"n=1500"`), although the fraction of the claim's extracted
values found among the source's equivalently-extracted values (a single
`n_value` 1500) is 0, not ≥ 0.50 — refuting the claimed equivalence. -/
theorem c1_counterexample :
    (verify_stat_evidence "50%".data "n=1500".data).map (fun r => r.grounded) =
      some (some true) ∧
    ¬ specStatFraction "50%".data "n=1500".data ≥ 1/2 := by decide

/-- C2 counterexample: three supporting quotes of which one is grounded
give `grounded_claims = 1`, `total_claims = 3`, but the reported
`overall_score` is the rounded 0.33 ≠ 1/3, refuting
`overall_score = grounded_claims / total_claims` as an exact equality. -/
theorem c2_counterexample :
    (validate_grounding (fun _ => []) ⟨[], ["beta gamma delta", "zzzz yyyy xxxx wwww qqqq",
        "jjjj kkkk llll mmmm nnnn"].map String.data, ⟨[], []⟩, .cstr []⟩
        "alpha beta gamma delta".data false).map
        (fun rep => (rep.overall_score, rep.total_claims, rep.grounded_claims, rep.errors)) =
      some (33/100, 3, 1, 2) ∧
    ¬ ((33 : ℚ)/100 = (1 : ℚ)/3) := by decide

/-- C3 counterexample: with a budget of 5 characters, a 10-character text
with two sections at offsets 0 and 1 yields a section chunk of 9
characters — a chunk exceeding the configured maximum. -/
theorem c3_counterexample :
    (split_into_sections 5 "abcdefghij".data
        [⟨"s1".data, some 0⟩, ⟨"s2".data, some 1⟩]).any
      (fun c => decide (5 < c.content.length)) = true := by decide

/-- C9 counterexample: for this quote and source, content-word coverage is
6/7 ≥ 0.85 and `_fuzzy_contains` early-returns score 6/7, although the
window strategy would have found ratio 11/12 > 6/7; the reported
`ClaimVerdict` score is round(6/7), not the maximum across strategies. -/
theorem c9_counterexample :
    fuzzy_contains "alpha beta gamma delta epsil zeta qq".data
        "alpha beta gamma delta epsil zeta omega".data QUOTE_SIMILARITY_THRESHOLD =
      (true, 6/7) ∧
    specMaxRatioAllStrategies "alpha beta gamma delta epsil zeta qq".data
        "alpha beta gamma delta epsil zeta omega".data = 11/12 ∧
    ¬ ((6 : ℚ)/7 = 11/12) ∧
    (verify_quotes ["alpha beta gamma delta epsil zeta omega".data]
        "alpha beta gamma delta epsil zeta qq".data).map (fun r => r.score) =
      [round2 (6/7)] ∧
    ¬ (round2 ((6 : ℚ)/7) = round2 ((11 : ℚ)/12)) := by decide

end Pipeline

namespace Pipeline

attribute [local semireducible] Rat.mul Rat.add Rat.sub Rat.inv

set_option maxRecDepth 40000

/-- Per-section chunks of the empty text are empty (every slice strips to
the empty string). -/
theorem secChunks_nil_text : ∀ l : List SecO, secChunks [] l = [] := by
  intro l
  induction l with
  | nil => rfl
  | cons s rest ih => simp [secChunks, pySlice, pyStrip, ih]

theorem chunk_by_size_nil_text (maxC : Nat) : chunk_by_size maxC [] = [] := by
  by_cases h : maxC = 0 <;> simp [chunk_by_size, h, chunkBySizeAux]

/-- C8 (amended): a document with no extractable text and no figure
descriptions yields zero chunks, and the orchestrator issues no per-chunk
LLM calls — but it does not treat this as an input error: it proceeds to
issue exactly one synthesis call over the empty output list and returns
that call's parsed result. -/
theorem c8_empty_text_synthesis (loads : List Char → Option Json)
    (chunkCall : List Char → PRes (List Char))
    (synthCall : List Char → List ChunkOut → PRes (List Char)) (maxC : Nat)
    (prompt schema : List Char) (sections : List Sec) :
    split_into_sections maxC [] sections = [] ∧
    generate_with_chunking loads chunkCall synthCall maxC prompt schema [] sections [] =
      (synthesize_outputs loads synthCall schema [], 0, 1) := by
  have hsplit : split_into_sections maxC [] sections = [] := by
    unfold split_into_sections
    cases hsec : sectionChunksOf [] sections with
    | none => exact chunk_by_size_nil_text maxC
    | some cs =>
      have hcs : cs = [] := by
        unfold sectionChunksOf at hsec
        by_cases hlen : sections.length < 2
        · simp [hlen] at hsec
        · simp only [hlen, if_false] at hsec
          cases hso : List.insertionSort secLe
              (sections.filterMap (fun s => s.offset.map (fun o => SecO.mk s.heading o))) with
          | nil => rw [hso] at hsec; simp at hsec
          | cons first restS =>
            rw [hso] at hsec
            simp only [Option.some.injEq] at hsec
            rw [← hsec]
            have hpre : (if first.off > 0 then
                let p := pyStrip (List.take first.off ([] : List Char))
                if p ≠ [] then [Chunk.mk "Preamble / Title".data p] else []
              else []) = [] := by
              by_cases h0 : first.off > 0 <;> simp [h0, pyStrip]
            rw [secChunks_nil_text]
            simpa using hpre
      rw [hcs]
      rfl
  refine ⟨hsplit, ?_⟩
  unfold generate_with_chunking
  have hm : match_figures_to_paper [] [] = [] := by rfl
  rw [hm]
  simp only [ne_eq, not_true_eq_false, if_false, reduceIte]
  rw [hsplit]
  rfl

/-- C8 counterexample: on empty text with no figures the orchestrator does
not raise an input error — it makes zero chunk calls, one synthesis call,
and returns the synthesis result. -/
theorem c8_counterexample :
    generate_with_chunking (fun _ => some (Json.obj [])) (fun _ => .exn "unused".data)
        (fun _ _ => .ok "ok".data) 30000 [] [] [] [] [] =
      (.ok ⟨some (Json.obj []), "ok".data⟩, 0, 1) := by rfl

/-- The aggregation of `validate_grounding`: the reported score is the
rounded exact ratio, and the status is computed from the exact
(unrounded) ratio. -/
theorem buildReport_spec (t g w e : Nat) (d : Details) :
    (buildReport t g w e d).overall_score =
      round2 (if (buildReport t g w e d).total_claims = 0 then 0
        else ((buildReport t g w e d).grounded_claims : ℚ) /
          ((buildReport t g w e d).total_claims : ℚ)) ∧
    (buildReport t g w e d).overall_status =
      (if ((if (buildReport t g w e d).total_claims = 0 then (0 : ℚ)
            else ((buildReport t g w e d).grounded_claims : ℚ) /
              ((buildReport t g w e d).total_claims : ℚ)) ≥ 85/100 ∧
          (buildReport t g w e d).errors = 0) then Status.grounded
        else if ((if (buildReport t g w e d).total_claims = 0 then (0 : ℚ)
            else ((buildReport t g w e d).grounded_claims : ℚ) /
              ((buildReport t g w e d).total_claims : ℚ)) ≥ 6/10 ∨
          (buildReport t g w e d).errors ≤ 1) then Status.partially_grounded
        else Status.review_needed) := by
  have hq : (if t > 0 then (g : ℚ) / (t : ℚ) else 0) =
      (if t = 0 then (0 : ℚ) else (g : ℚ) / (t : ℚ)) := by
    by_cases h0 : t = 0
    · simp [h0]
    · simp [h0, Nat.pos_of_ne_zero h0]
  unfold buildReport
  dsimp only
  rw [hq]
  refine ⟨rfl, ?_⟩
  by_cases hA : (if t = 0 then (0 : ℚ) else (g : ℚ) / (t : ℚ)) ≥ 85/100 <;>
    by_cases hB : e = 0 <;>
    by_cases hC : (if t = 0 then (0 : ℚ) else (g : ℚ) / (t : ℚ)) ≥ 6/10 <;>
    by_cases hD : e ≤ 1 <;>
    simp [hA, hB, hC, hD]

/-- C2 (amended): every report produced by `validate_grounding` has
`overall_score` equal to `grounded_claims / total_claims` rounded
half-even to two decimals (0 when `total_claims = 0`), and
`overall_status` determined by the exact ratio: `grounded` when the ratio
is ≥ 0.85 and `errors = 0`, else `partially_grounded` when the ratio is
≥ 0.60 or `errors ≤ 1`, else `review_needed`. -/
theorem c2_amended (judge : List LlmClaim → List Verdict) (output : SR)
    (source : List Char) (skip : Bool) (rep : Report)
    (h : validate_grounding judge output source skip = some rep) :
    rep.overall_score =
      round2 (if rep.total_claims = 0 then 0
        else (rep.grounded_claims : ℚ) / (rep.total_claims : ℚ)) ∧
    rep.overall_status =
      (if ((if rep.total_claims = 0 then (0 : ℚ)
            else (rep.grounded_claims : ℚ) / (rep.total_claims : ℚ)) ≥ 85/100 ∧
          rep.errors = 0) then Status.grounded
        else if ((if rep.total_claims = 0 then (0 : ℚ)
            else (rep.grounded_claims : ℚ) / (rep.total_claims : ℚ)) ≥ 6/10 ∨
          rep.errors ≤ 1) then Status.partially_grounded
        else Status.review_needed) := by
  unfold validate_grounding at h
  cases hfs : findingsScan source output.key_findings 0 with
  | none => rw [hfs] at h; exact absurd h (by simp)
  | some pr =>
    rw [hfs] at h
    obtain ⟨stats, claims1⟩ := pr
    simp only [Option.some.injEq] at h
    rw [← h]
    exact buildReport_spec _ _ _ _ _

/-- C2 witness: the amended theorem applied to the empty structured
result, whose report has ratio 0 and status `partially_grounded`. -/
theorem c2_amended_witness :
    (⟨0, .partially_grounded, 0, 0, 0, 0, ⟨[], [], [], []⟩⟩ : Report).overall_score =
      round2 (if (⟨0, .partially_grounded, 0, 0, 0, 0, ⟨[], [], [], []⟩⟩ : Report).total_claims = 0
        then 0
        else ((⟨0, .partially_grounded, 0, 0, 0, 0, ⟨[], [], [], []⟩⟩ : Report).grounded_claims : ℚ) /
          ((⟨0, .partially_grounded, 0, 0, 0, 0, ⟨[], [], [], []⟩⟩ : Report).total_claims : ℚ)) ∧
    (⟨0, .partially_grounded, 0, 0, 0, 0, ⟨[], [], [], []⟩⟩ : Report).overall_status =
      (if ((if (⟨0, .partially_grounded, 0, 0, 0, 0, ⟨[], [], [], []⟩⟩ : Report).total_claims = 0
            then (0 : ℚ)
            else ((⟨0, .partially_grounded, 0, 0, 0, 0, ⟨[], [], [], []⟩⟩ : Report).grounded_claims : ℚ) /
              ((⟨0, .partially_grounded, 0, 0, 0, 0, ⟨[], [], [], []⟩⟩ : Report).total_claims : ℚ)) ≥ 85/100 ∧
          (⟨0, .partially_grounded, 0, 0, 0, 0, ⟨[], [], [], []⟩⟩ : Report).errors = 0)
        then Status.grounded
        else if ((if (⟨0, .partially_grounded, 0, 0, 0, 0, ⟨[], [], [], []⟩⟩ : Report).total_claims = 0
            then (0 : ℚ)
            else ((⟨0, .partially_grounded, 0, 0, 0, 0, ⟨[], [], [], []⟩⟩ : Report).grounded_claims : ℚ) /
              ((⟨0, .partially_grounded, 0, 0, 0, 0, ⟨[], [], [], []⟩⟩ : Report).total_claims : ℚ)) ≥ 6/10 ∨
          (⟨0, .partially_grounded, 0, 0, 0, 0, ⟨[], [], [], []⟩⟩ : Report).errors ≤ 1)
        then Status.partially_grounded
        else Status.review_needed) :=
  c2_amended (fun _ => []) ⟨[], [], ⟨[], []⟩, .cstr []⟩ "src".data false
    ⟨0, .partially_grounded, 0, 0, 0, 0, ⟨[], [], [], []⟩⟩ (by decide)

end Pipeline

namespace Pipeline

attribute [local semireducible] Rat.mul Rat.add Rat.sub Rat.inv

set_option maxRecDepth 40000

theorem pyStrip_length_le (l : List Char) : (pyStrip l).length ≤ l.length := by
  unfold pyStrip
  calc ((l.dropWhile isPySpace).reverse.dropWhile isPySpace).reverse.length
      = ((l.dropWhile isPySpace).reverse.dropWhile isPySpace).length := List.length_reverse _
    _ ≤ (l.dropWhile isPySpace).reverse.length := (List.dropWhile_sublist _).length_le
    _ = (l.dropWhile isPySpace).length := List.length_reverse _
    _ ≤ l.length := (List.dropWhile_sublist _).length_le

theorem pyStrip_nl2 (x : List Char) : pyStrip (nl2 ++ x) = pyStrip x := by
  unfold pyStrip nl2
  rfl

theorem chunkBySizeAux_le (maxC : Nat) :
    ∀ (fuel k : Nat) (l : List Char) (c : Chunk),
      c ∈ chunkBySizeAux maxC fuel k l → c.content.length ≤ maxC := by
  intro fuel
  induction fuel with
  | zero => intro k l c hc; simp [chunkBySizeAux] at hc
  | succ fuel ih =>
    intro k l c hc
    cases l with
    | nil => simp [chunkBySizeAux] at hc
    | cons a rest =>
      simp only [chunkBySizeAux] at hc
      rcases List.mem_cons.mp hc with h | h
      · rw [h]
        simpa using Nat.min_le_left maxC (a :: rest).length
      · exact ih _ _ _ h

/-- Invariant of the merge loop: every emitted chunk either fits in
`maxC + 2` characters, or is the strip of a single input chunk's content
(an oversized chunk passing through unsplit). The guard tests the buffer
before appending the 2-character separator, which is why merged buffers
can reach `maxC + 1` characters. -/
theorem merge_aux_spec (maxC : Nat) (S : List Chunk) :
    ∀ (rest : List Chunk) (bh bc : List Char),
      (∀ c ∈ rest, c ∈ S) →
      (bc = [] ∨ bc.length < maxC + 2 ∨ ∃ s ∈ S, pyStrip bc = pyStrip s.content) →
      ∀ out ∈ merge_small_chunks_aux maxC rest bh bc,
        out.content.length < maxC + 2 ∨ ∃ s ∈ S, out.content = pyStrip s.content := by
  intro rest
  induction rest with
  | nil =>
    intro bh bc _ hbc out hout
    rw [merge_small_chunks_aux] at hout
    by_cases hbc0 : bc = []
    · rw [if_neg (not_not_intro hbc0)] at hout
      exact absurd hout (List.not_mem_nil out)
    · rw [if_pos hbc0, List.mem_singleton] at hout
      subst hout
      rcases hbc with h | h | ⟨s, hs, he⟩
      · exact absurd h hbc0
      · exact Or.inl (lt_of_le_of_lt (pyStrip_length_le bc) h)
      · exact Or.inr ⟨s, hs, he⟩
  | cons c rest ih =>
    intro bh bc hrest hbc out hout
    rw [merge_small_chunks_aux] at hout
    by_cases hfit : bc.length + c.content.length < maxC
    · simp only [hfit, if_true] at hout
      refine ih _ _ (fun x hx => hrest x (List.mem_cons_of_mem c hx)) ?_ out hout
      right; left
      have : (bc ++ nl2 ++ c.content).length = bc.length + 2 + c.content.length := by
        simp [nl2]
        omega
      omega
    · simp only [hfit, if_false] at hout
      rcases List.mem_append.mp hout with h | h
      · by_cases hbc0 : bc = []
        · rw [if_neg (not_not_intro hbc0)] at h
          exact absurd h (List.not_mem_nil out)
        · rw [if_pos hbc0, List.mem_singleton] at h
          subst h
          rcases hbc with hb | hb | ⟨s, hs, he⟩
          · exact absurd hb hbc0
          · exact Or.inl (lt_of_le_of_lt (pyStrip_length_le bc) hb)
          · exact Or.inr ⟨s, hs, he⟩
      · refine ih _ _ (fun x hx => hrest x (List.mem_cons_of_mem c hx)) ?_ out h
        exact Or.inr (Or.inr ⟨c, hrest c (List.mem_cons_self c rest), rfl⟩)

/-- C3 (amended): chunks from the fixed-size fallback never exceed the
budget; on the section path a chunk may exceed it only as the strip of a
single (oversized) input section chunk, and merged buffers stay below
`maxC + 2` (the budget can be overshot by the blank-line separator, and
an individual section larger than the budget passes through unsplit). -/
theorem c3_amended (maxC : Nat) (hpos : 0 < maxC) (text : List Char)
    (sections : List Sec) :
    (∀ c ∈ chunk_by_size maxC text, c.content.length ≤ maxC) ∧
    (∀ c ∈ split_into_sections maxC text sections,
      c.content.length < maxC + 2 ∨
        ∃ c0 ∈ (sectionChunksOf text sections).getD [],
          c.content = pyStrip c0.content) := by
  have hsize : ∀ c ∈ chunk_by_size maxC text, c.content.length ≤ maxC := by
    intro c hc
    unfold chunk_by_size at hc
    rw [if_neg (Nat.pos_iff_ne_zero.mp hpos)] at hc
    exact chunkBySizeAux_le maxC _ _ _ _ hc
  refine ⟨hsize, ?_⟩
  intro c hc
  unfold split_into_sections at hc
  cases hsec : sectionChunksOf text sections with
  | none =>
    rw [hsec] at hc
    exact Or.inl (lt_of_le_of_lt (hsize c hc) (by omega))
  | some cs =>
    rw [hsec] at hc
    have := merge_aux_spec maxC cs cs [] [] (fun x hx => hx) (Or.inl rfl) c hc
    simpa [hsec] using this

/-- C3 witness: the amended theorem at budget 5 on a two-section text. -/
theorem c3_amended_witness :
    (0 : Nat) < 5 ∧
    ((∀ c ∈ chunk_by_size 5 "abcdefghij".data, c.content.length ≤ 5) ∧
      (∀ c ∈ split_into_sections 5 "abcdefghij".data
          [⟨"s1".data, some 0⟩, ⟨"s2".data, some 1⟩],
        c.content.length < 5 + 2 ∨
          ∃ c0 ∈ (sectionChunksOf "abcdefghij".data
              [⟨"s1".data, some 0⟩, ⟨"s2".data, some 1⟩]).getD [],
            c.content = pyStrip c0.content)) :=
  ⟨by decide, c3_amended 5 (by decide) "abcdefghij".data
    [⟨"s1".data, some 0⟩, ⟨"s2".data, some 1⟩]⟩

end Pipeline

namespace Pipeline

attribute [local semireducible] Rat.mul Rat.add Rat.sub Rat.inv

set_option maxRecDepth 40000

theorem foldl_max_init (g : α → ℚ) :
    ∀ (l : List α) (b : ℚ), b ≤ l.foldl (fun acc w => max acc (g w)) b := by
  intro l
  induction l with
  | nil => intro b; simp
  | cons w rest ih =>
    intro b
    exact le_trans (le_max_left b (g w)) (ih (max b (g w)))

theorem foldl_max_mem (g : α → ℚ) :
    ∀ (l : List α) (b : ℚ) (w : α), w ∈ l →
      g w ≤ l.foldl (fun acc x => max acc (g x)) b := by
  intro l
  induction l with
  | nil => intro b w hw; exact absurd hw (List.not_mem_nil w)
  | cons w' rest ih =>
    intro b w hw
    rcases List.mem_cons.mp hw with h | h
    · subst h
      exact le_trans (le_max_right b (g w)) (foldl_max_init g rest (max b (g w)))
    · exact ih (max b (g w')) w h

theorem foldl_max_le (g : α → ℚ) (M : ℚ) :
    ∀ (l : List α) (b : ℚ), b ≤ M → (∀ w ∈ l, g w ≤ M) →
      l.foldl (fun acc w => max acc (g w)) b ≤ M := by
  intro l
  induction l with
  | nil => intro b hb _; simpa using hb
  | cons w rest ih =>
    intro b hb h
    exact ih (max b (g w)) (max_le hb (h w (List.mem_cons_self w rest)))
      (fun x hx => h x (List.mem_cons_of_mem w hx))

/-- The window scan never reports more than the running maximum over the
initial best and all window ratios. -/
theorem windowLoop_le (qn : List Char) (thr : ℚ) :
    ∀ (ws : List (List Char)) (best : ℚ),
      (windowLoop qn thr ws best).2 ≤
        ws.foldl (fun acc w => max acc (ratioSM qn w)) best := by
  intro ws
  induction ws with
  | nil => intro best; simp [windowLoop]
  | cons w rest ih =>
    intro best
    rw [windowLoop]
    by_cases hr : ratioSM qn w ≥ thr
    · rw [if_pos hr]
      exact le_trans (le_max_right best (ratioSM qn w))
        (foldl_max_init _ rest (max best (ratioSM qn w)))
    · rw [if_neg hr]
      exact ih (max best (ratioSM qn w))

/-- C9 (amended): the score reported by the quote layer is the rounded
score of `_fuzzy_contains`, which never exceeds — and, at the early
returns, can be strictly below — the maximum similarity ratio across the
three strategies; it is the ratio of the first strategy (or window) whose
ratio crossed its acceptance threshold, or the maximum examined ratio if
none crossed. -/
theorem c9_amended :
    (∀ source substring,
      (fuzzy_contains source substring QUOTE_SIMILARITY_THRESHOLD).2 ≤
        specMaxRatioAllStrategies source substring) ∧
    (∀ quote source, quote ≠ [] → ¬ (pyStrip quote).length < 10 →
      verify_quotes [quote] source =
        [⟨trunc 100 quote, some (fuzzy_contains source quote QUOTE_SIMILARITY_THRESHOLD).1,
          round2 (fuzzy_contains source quote QUOTE_SIMILARITY_THRESHOLD).2, none⟩]) := by
  constructor
  · intro source substring
    unfold fuzzy_contains specMaxRatioAllStrategies
    by_cases hsub : isSubL (normalizeText substring) (normalizeText source) = true
    · simp only [hsub, if_true]
      exact le_max_left 1 _
    · simp only [hsub, if_false, Bool.false_eq_true]
      by_cases hq0 : (normalizeText substring).length = 0
      · simp only [hq0, if_true, reduceIte]
        refine le_trans ?_ (le_max_right _ _)
        refine le_trans ?_ (le_max_right _ _)
        exact foldl_max_init _ _ 0
      · simp only [hq0, if_false, reduceIte]
        by_cases hc : (splitWs (normalizeText substring)).filter
            (fun w => !(stopWords.contains w) && decide (w.length > 2)) = []
        · simp only [hc, if_true, reduceIte]
          refine le_trans (windowLoop_le _ _ _ _) ?_
          refine le_trans ?_ (le_max_right _ _)
          exact le_max_right _ _
        · simp only [hc, if_false, reduceIte]
          by_cases hwr : (((((splitWs (normalizeText substring)).filter
                (fun w => !(stopWords.contains w) && decide (w.length > 2))).filter
                (fun w => isSubL w (normalizeText source))).length : ℚ) /
              ((((splitWs (normalizeText substring)).filter
                (fun w => !(stopWords.contains w) && decide (w.length > 2))).length : ℚ))) ≥
              85/100
          · simp only [hwr, if_true, reduceIte]
            exact le_trans (le_max_left _ _) (le_max_right _ _)
          · simp only [hwr, if_false, reduceIte]
            refine le_trans (windowLoop_le _ _ _ _) ?_
            refine foldl_max_le _ _ _ _ (max_le ?_ ?_) ?_
            · refine le_trans ?_ (le_max_right _ _)
              refine le_trans ?_ (le_max_right _ _)
              exact foldl_max_init _ _ 0
            · exact le_trans (le_max_left _ _) (le_max_right _ _)
            · intro w hw
              refine le_trans (foldl_max_mem _ _ 0 w hw) ?_
              exact le_trans (le_max_right _ _) (le_max_right _ _)
  · intro quote source hne hlen
    unfold verify_quotes
    simp [hne, hlen]

/-- C9 witness: the amended theorem applied at the counterexample inputs. -/
theorem c9_amended_witness :
    ("alpha beta gamma delta epsil zeta omega".data ≠ [] ∧
      ¬ (pyStrip "alpha beta gamma delta epsil zeta omega".data).length < 10) ∧
    (fuzzy_contains "alpha beta gamma delta epsil zeta qq".data
        "alpha beta gamma delta epsil zeta omega".data QUOTE_SIMILARITY_THRESHOLD).2 ≤
      specMaxRatioAllStrategies "alpha beta gamma delta epsil zeta qq".data
        "alpha beta gamma delta epsil zeta omega".data ∧
    verify_quotes ["alpha beta gamma delta epsil zeta omega".data]
        "alpha beta gamma delta epsil zeta qq".data =
      [⟨trunc 100 "alpha beta gamma delta epsil zeta omega".data,
        some (fuzzy_contains "alpha beta gamma delta epsil zeta qq".data
          "alpha beta gamma delta epsil zeta omega".data QUOTE_SIMILARITY_THRESHOLD).1,
        round2 (fuzzy_contains "alpha beta gamma delta epsil zeta qq".data
          "alpha beta gamma delta epsil zeta omega".data QUOTE_SIMILARITY_THRESHOLD).2,
        none⟩] :=
  ⟨⟨by decide, by decide⟩,
    c9_amended.1 "alpha beta gamma delta epsil zeta qq".data
      "alpha beta gamma delta epsil zeta omega".data,
    c9_amended.2 "alpha beta gamma delta epsil zeta omega".data
      "alpha beta gamma delta epsil zeta qq".data (by decide) (by decide)⟩

end Pipeline


namespace Pipeline

attribute [local semireducible] Rat.mul Rat.add Rat.sub Rat.inv

set_option maxRecDepth 40000

theorem containsMem [DecidableEq α] {l : List α} {a : α} (h : l.contains a = true) :
    a ∈ l :=
  List.elem_iff.mp h

theorem statScan_lengths (sm : List (List Char × List Char)) (cib spv : List (List Char))
    (sn : List Char) :
    ∀ (l : List KeyValue) (pr : List (List Char) × List (List Char)),
      statScan sm cib spv sn l = some pr → pr.1.length + pr.2.length = l.length := by
  intro l
  induction l with
  | nil =>
    intro pr h
    simp only [statScan, Option.some.injEq] at h
    rw [← h]
    rfl
  | cons cv rest ih =>
    intro pr h
    rw [statScan] at h
    cases hf : statFoundQ sm cib spv sn cv with
    | none => rw [hf] at h; simp at h
    | some isf =>
      rw [hf] at h
      cases hs : statScan sm cib spv sn rest with
      | none => rw [hs] at h; simp at h
      | some pr2 =>
        rw [hs] at h
        simp only [Option.map_some', Option.some.injEq] at h
        have hlen := ih pr2 hs
        by_cases hisf : isf = true
        · rw [hisf] at h
          simp only [reduceIte] at h
          rw [← h]
          simp only [List.length_cons]
          omega
        · rw [Bool.not_eq_true] at hisf
          rw [hisf] at h
          simp only [Bool.false_eq_true, reduceIte] at h
          rw [← h]
          simp only [List.length_cons]
          omega

theorem mem_dedupFirstAux [DecidableEq α] :
    ∀ (l seen : List α) (a : α), a ∈ l → a ∉ seen → a ∈ dedupFirstAux seen l := by
  intro l
  induction l with
  | nil => intro seen a ha _; exact absurd ha (List.not_mem_nil a)
  | cons x xs ih =>
    intro seen a ha hns
    rw [dedupFirstAux]
    by_cases hx : seen.contains x = true
    · rw [if_pos hx]
      rcases List.mem_cons.mp ha with he | hm
      · subst he
        exact absurd (containsMem hx) hns
      · exact ih seen a hm hns
    · rw [if_neg hx]
      by_cases hax : a = x
      · subst hax
        exact List.mem_cons_self a _
      · have hm : a ∈ xs := by
          rcases List.mem_cons.mp ha with he | hm
          · exact absurd he hax
          · exact hm
        refine List.mem_cons_of_mem x (ih (x :: seen) a hm ?_)
        intro hcon
        rcases List.mem_cons.mp hcon with he | hs
        · exact hax he
        · exact hns hs

theorem mem_dedupFirst [DecidableEq α] (l : List α) (a : α) (h : a ∈ l) :
    a ∈ dedupFirst l :=
  mem_dedupFirstAux l [] a h (List.not_mem_nil a)

theorem dedupFirst_ne_nil [DecidableEq α] (l : List α) (h : l ≠ []) :
    dedupFirst l ≠ [] := by
  cases l with
  | nil => exact absurd rfl h
  | cons x xs =>
    simp [dedupFirst, dedupFirstAux]

theorem statScan_found_mem (sm : List (List Char × List Char)) (cib spv : List (List Char))
    (sn : List Char) :
    ∀ (l : List KeyValue) (pr : List (List Char) × List (List Char)) (cv : KeyValue),
      cv ∈ l → statScan sm cib spv sn l = some pr →
      statFoundQ sm cib spv sn cv = some true → statLabel cv ∈ pr.1 := by
  intro l
  induction l with
  | nil => intro pr cv h _ _; exact absurd h (List.not_mem_nil cv)
  | cons c rest ih =>
    intro pr cv hmem hscan hfound
    rw [statScan] at hscan
    cases hf : statFoundQ sm cib spv sn c with
    | none => rw [hf] at hscan; simp at hscan
    | some isf =>
      rw [hf] at hscan
      cases hs : statScan sm cib spv sn rest with
      | none => rw [hs] at hscan; simp at hscan
      | some pr2 =>
        rw [hs] at hscan
        simp only [Option.map_some', Option.some.injEq] at hscan
        rcases List.mem_cons.mp hmem with he | hm
        · subst he
          have hisf : isf = true := by
            have := hf.symm.trans hfound
            exact (Option.some.injEq _ _).mp this
          rw [hisf] at hscan
          simp only [reduceIte] at hscan
          rw [← hscan]
          exact List.mem_cons_self _ _
        · have hin := ih pr2 cv hm hs hfound
          by_cases hisf : isf = true
          · rw [hisf] at hscan
            simp only [reduceIte] at hscan
            rw [← hscan]
            exact List.mem_cons_of_mem _ hin
          · rw [Bool.not_eq_true] at hisf
            rw [hisf] at hscan
            simp only [Bool.false_eq_true, reduceIte] at hscan
            rw [← hscan]
            exact hin

end Pipeline

namespace Pipeline

attribute [local semireducible] Rat.mul Rat.add Rat.sub Rat.inv

set_option maxRecDepth 40000

/-- Destructuring of a successful `_verify_stat_evidence` run with a
nonempty claim extraction. -/
theorem verify_stat_some (stat_text source_text : List Char) (r : StatRes)
    (h : verify_stat_evidence stat_text source_text = some r)
    (hne : extract_key_values stat_text ≠ []) :
    ∃ pr, statScan (sourceMetricsOf (extract_key_values source_text))
        (sourceBoundsOf (extract_key_values source_text))
        (sourcePsOf (extract_key_values source_text))
        (normalizeText source_text) (extract_key_values stat_text) = some pr ∧
      r = ⟨some (decide ((if (dedupFirst pr.1).length + (dedupFirst pr.2).length > 0 then
            ((dedupFirst pr.1).length : ℚ) /
              (((dedupFirst pr.1).length + (dedupFirst pr.2).length : ℕ) : ℚ) else 0) ≥
          STAT_MATCH_THRESHOLD)),
        round2 (if (dedupFirst pr.1).length + (dedupFirst pr.2).length > 0 then
            ((dedupFirst pr.1).length : ℚ) /
              (((dedupFirst pr.1).length + (dedupFirst pr.2).length : ℕ) : ℚ) else 0),
        dedupFirst pr.1, dedupFirst pr.2, none⟩ := by
  simp only [verify_stat_evidence] at h
  rw [if_neg hne] at h
  cases hscan : statScan (sourceMetricsOf (extract_key_values source_text))
      (sourceBoundsOf (extract_key_values source_text))
      (sourcePsOf (extract_key_values source_text))
      (normalizeText source_text) (extract_key_values stat_text) with
  | none => rw [hscan] at h; exact absurd h (by simp)
  | some pr =>
    rw [hscan] at h
    simp only [Option.some.injEq] at h
    exact ⟨pr, rfl, h.symm⟩

/-- C1 (amended): for every key finding whose statistical-evidence text
yields at least one extracted value, the statistical layer reports
`grounded=True` exactly when at least half of the distinct found/missing
labels are found, where "found" follows the source's per-type rules
(which include raw-substring fallbacks against the normalized source); a
claimed p-value with operator `<`/`<=` is found whenever some source
p-value parses to a number at most the claimed threshold; and the spec's
worked example reports `grounded=True`. -/
theorem c1_amended :
    (∀ stat_text source_text r,
      verify_stat_evidence stat_text source_text = some r →
      extract_key_values stat_text ≠ [] →
      (r.grounded = some true ↔
        r.found.length + r.missing.length ≤ 2 * r.found.length)) ∧
    (∀ stat_text source_text r op v spOp sp spq cpq,
      verify_stat_evidence stat_text source_text = some r →
      KeyValue.pvalue op v ∈ extract_key_values stat_text →
      (op = "<".data ∨ op = "<=".data) →
      KeyValue.pvalue spOp sp ∈ extract_key_values source_text →
      parseDecimal sp = some spq → parseDecimal v = some cpq → spq ≤ cpq →
      statLabel (.pvalue op v) ∈ r.found) ∧
    (verify_stat_evidence "HR=0.64, 95% CI 0.58-0.71, p<0.001".data
        "hazard ratio of 0.64 (95% CI: 0.58 to 0.71), p<0.001".data).map
      (fun r => r.grounded) = some (some true) := by
  refine ⟨?_, ?_, by decide⟩
  · intro stat source r h hne
    obtain ⟨pr, hscan, hr⟩ := verify_stat_some stat source r h hne
    subst hr
    have hlen := statScan_lengths _ _ _ _ _ pr hscan
    have h1 : pr.1 ≠ [] ∨ pr.2 ≠ [] := by
      by_contra hcon
      push_neg at hcon
      rw [hcon.1, hcon.2] at hlen
      exact hne (List.length_eq_zero.mp (by simpa using hlen.symm))
    have htot : 0 < (dedupFirst pr.1).length + (dedupFirst pr.2).length := by
      rcases h1 with h1 | h1
      · have hp := List.length_pos.mpr (dedupFirst_ne_nil pr.1 h1)
        omega
      · have hp := List.length_pos.mpr (dedupFirst_ne_nil pr.2 h1)
        omega
    dsimp only
    simp only [Option.some.injEq, decide_eq_true_eq]
    rw [if_pos htot]
    have hTpos : (0:ℚ) <
        (((dedupFirst pr.1).length + (dedupFirst pr.2).length : ℕ) : ℚ) := by
      exact_mod_cast htot
    simp only [STAT_MATCH_THRESHOLD]
    rw [ge_iff_le, le_div_iff hTpos]
    constructor
    · intro hx
      have hq : (((dedupFirst pr.1).length + (dedupFirst pr.2).length : ℕ) : ℚ) ≤
          2 * ((dedupFirst pr.1).length : ℚ) := by
        push_cast at hx ⊢
        linarith
      exact_mod_cast hq
    · intro hx
      have hq : (((dedupFirst pr.1).length + (dedupFirst pr.2).length : ℕ) : ℚ) ≤
          2 * ((dedupFirst pr.1).length : ℚ) := by exact_mod_cast hx
      push_cast at hq ⊢
      linarith
  · intro stat source r op v spOp sp spq cpq h hmem hop hsmem hsp hv hle
    have hne : extract_key_values stat ≠ [] := by
      intro h0
      rw [h0] at hmem
      exact absurd hmem (List.not_mem_nil _)
    obtain ⟨pr, hscan, hr⟩ := verify_stat_some stat source r h hne
    have hfq : statFoundQ (sourceMetricsOf (extract_key_values source))
        (sourceBoundsOf (extract_key_values source))
        (sourcePsOf (extract_key_values source)) (normalizeText source)
        (.pvalue op v) = some true := by
      simp only [statFoundQ, hv, Option.some.injEq, Bool.or_eq_true]
      left
      refine List.any_eq_true.mpr
        ⟨sp, List.mem_filterMap.mpr ⟨.pvalue spOp sp, hsmem, rfl⟩, ?_⟩
      simp only [hsp]
      rcases hop with h1 | h1 <;> simp [h1, hle]
    subst hr
    dsimp only
    exact mem_dedupFirst _ _ (statScan_found_mem _ _ _ _ _ pr _ hmem hscan hfq)

end Pipeline

namespace Pipeline

attribute [local semireducible] Rat.mul Rat.add Rat.sub Rat.inv

set_option maxRecDepth 40000

/-- The concrete statistical result for the spec's worked example. -/
def c1res : StatRes :=
  ⟨some true, 3/4,
    ["p<0.001".data, "CI 0.58-0.71".data, "95%".data], ["HR=0.64".data], none⟩

/-- C1 witness: the amended theorem applied at the worked example (the
half-found criterion and the p-value rule, with `p<0.001` matched by the
source's `p<0.001`). -/
theorem c1_amended_witness :
    (c1res.grounded = some true ↔
      c1res.found.length + c1res.missing.length ≤ 2 * c1res.found.length) ∧
    statLabel (.pvalue "<".data "0.001".data) ∈ c1res.found :=
  ⟨c1_amended.1 "HR=0.64, 95% CI 0.58-0.71, p<0.001".data
      "hazard ratio of 0.64 (95% CI: 0.58 to 0.71), p<0.001".data c1res
      (by decide) (by decide),
    c1_amended.2.1 "HR=0.64, 95% CI 0.58-0.71, p<0.001".data
      "hazard ratio of 0.64 (95% CI: 0.58 to 0.71), p<0.001".data c1res
      "<".data "0.001".data "<".data "0.001".data (1/1000) (1/1000)
      (by decide) (by decide) (Or.inl rfl) (by decide) (by decide) (by decide)
      (le_refl _)⟩

end Pipeline

namespace Pipeline

attribute [local semireducible] Rat.mul Rat.add Rat.sub Rat.inv

set_option maxRecDepth 40000

/-- The distinct figure numbers referenced in the text, in first-mention
order (the caption-bearing first occurrence wins). -/
def uniqueNums (text : List Char) : List Nat :=
  (dedupByNum [] (extractFigRefs text)).map FigRef.fig_num

theorem memContains [DecidableEq α] {l : List α} {a : α} (h : a ∈ l) :
    l.contains a = true :=
  List.elem_iff.mpr h

theorem dedupByNum_nodup :
    ∀ (l : List FigRef) (seen : List Nat),
      ((dedupByNum seen l).map FigRef.fig_num).Nodup ∧
      ∀ n ∈ (dedupByNum seen l).map FigRef.fig_num, n ∉ seen := by
  intro l
  induction l with
  | nil => intro seen; exact ⟨List.nodup_nil, by simp [dedupByNum]⟩
  | cons r rest ih =>
    intro seen
    rw [dedupByNum]
    by_cases hc : seen.contains r.fig_num = true
    · rw [if_pos hc]
      exact ih seen
    · rw [if_neg hc]
      obtain ⟨ihn, ihs⟩ := ih (r.fig_num :: seen)
      constructor
      · simp only [List.map_cons, List.nodup_cons]
        exact ⟨fun hmem => (ihs _ hmem) (List.mem_cons_self _ _), ihn⟩
      · intro n hn hns
        simp only [List.map_cons, List.mem_cons] at hn
        rcases hn with he | hm
        · subst he
          exact hc (memContains hns)
        · exact (ihs n hm) (List.mem_cons_of_mem _ hns)

/-- C5: when the number of distinct figure numbers referenced in the text
equals the number of figure descriptions, the matcher pairs them
position-for-position: images sorted by (page, index) zipped against
references sorted by figure number; the images are a permutation of the
input (each used once), the reference numbers are a permutation of the
distinct referenced numbers (each used once), and both sides are sorted —
so the i-th output is labeled with the i-th smallest referenced figure
number and carries the i-th image's page and description. -/
theorem c5_equal_counts (text : List Char) (figs : List FigDesc)
    (h : (uniqueNums text).length = figs.length) :
    match_figures_to_paper text figs =
      List.zipWith (fun img ref =>
        MatchedFig.mk ("Fig. ".data ++ (toString ref.fig_num).data) img.page
          img.description)
        (List.insertionSort imgLe figs)
        (List.insertionSort refLe (dedupByNum [] (extractFigRefs text))) ∧
    (List.insertionSort imgLe figs).Perm figs ∧
    List.Sorted imgLe (List.insertionSort imgLe figs) ∧
    ((List.insertionSort refLe (dedupByNum [] (extractFigRefs text))).map
      FigRef.fig_num).Perm (uniqueNums text) ∧
    List.Sorted (· < ·)
      ((List.insertionSort refLe (dedupByNum [] (extractFigRefs text))).map
        FigRef.fig_num) := by
  have hpermImg := List.perm_insertionSort imgLe figs
  have hpermRef := List.perm_insertionSort refLe (dedupByNum [] (extractFigRefs text))
  have hpermNums : ((List.insertionSort refLe (dedupByNum [] (extractFigRefs text))).map
      FigRef.fig_num).Perm (uniqueNums text) := hpermRef.map FigRef.fig_num
  have hnodup : (uniqueNums text).Nodup := (dedupByNum_nodup (extractFigRefs text) []).1
  have hsortedRef : List.Sorted refLe
      (List.insertionSort refLe (dedupByNum [] (extractFigRefs text))) :=
    List.sorted_insertionSort refLe _
  have hsortedNums : List.Sorted (· ≤ ·)
      ((List.insertionSort refLe (dedupByNum [] (extractFigRefs text))).map
        FigRef.fig_num) :=
    List.Pairwise.map FigRef.fig_num (fun _ _ hr => hr) hsortedRef
  have hltNums : List.Sorted (· < ·)
      ((List.insertionSort refLe (dedupByNum [] (extractFigRefs text))).map
        FigRef.fig_num) :=
    List.Sorted.lt_of_le hsortedNums (hpermNums.nodup_iff.mpr hnodup)
  refine ⟨?_, hpermImg, List.sorted_insertionSort imgLe figs, hpermNums, hltNums⟩
  by_cases hfigs : figs = []
  · subst hfigs
    have hu : uniqueNums text = [] := List.length_eq_zero.mp (by simpa using h)
    have hd : dedupByNum [] (extractFigRefs text) = [] := by
      have := congrArg List.length hu
      simp only [uniqueNums, List.length_map] at this
      exact List.length_eq_zero.mp this
    rw [hd]
    simp [match_figures_to_paper, List.insertionSort]
  · have hd : dedupByNum [] (extractFigRefs text) ≠ [] := by
      intro h0
      apply hfigs
      refine List.length_eq_zero.mp ?_
      rw [← h]
      simp [uniqueNums, h0]
    have hlen : (List.insertionSort imgLe figs).length =
        (List.insertionSort refLe (dedupByNum [] (extractFigRefs text))).length := by
      rw [hpermImg.length_eq, hpermRef.length_eq]
      have : (uniqueNums text).length = (dedupByNum [] (extractFigRefs text)).length := by
        simp [uniqueNums]
      omega
    unfold match_figures_to_paper
    rw [if_neg hfigs, if_neg hd, if_pos hlen]

end Pipeline

namespace Pipeline

attribute [local semireducible] Rat.mul Rat.add Rat.sub Rat.inv

set_option maxRecDepth 40000

/-- C5 witness: two referenced figures and two images (supplied out of
page order) are paired position-for-position. -/
theorem c5_equal_counts_witness :
    (uniqueNums "Figure 1. KM curves\nFigure 2. Flow chart".data).length =
      ([⟨0, 2, [], "d2".data⟩, ⟨1, 1, [], "d1".data⟩] : List FigDesc).length ∧
    (match_figures_to_paper "Figure 1. KM curves\nFigure 2. Flow chart".data
        [⟨0, 2, [], "d2".data⟩, ⟨1, 1, [], "d1".data⟩] =
      List.zipWith (fun img ref =>
        MatchedFig.mk ("Fig. ".data ++ (toString ref.fig_num).data) img.page
          img.description)
        (List.insertionSort imgLe [⟨0, 2, [], "d2".data⟩, ⟨1, 1, [], "d1".data⟩])
        (List.insertionSort refLe (dedupByNum []
          (extractFigRefs "Figure 1. KM curves\nFigure 2. Flow chart".data))) ∧
      (List.insertionSort imgLe
        [⟨0, 2, [], "d2".data⟩, ⟨1, 1, [], "d1".data⟩]).Perm
        [⟨0, 2, [], "d2".data⟩, ⟨1, 1, [], "d1".data⟩] ∧
      List.Sorted imgLe
        (List.insertionSort imgLe [⟨0, 2, [], "d2".data⟩, ⟨1, 1, [], "d1".data⟩]) ∧
      ((List.insertionSort refLe (dedupByNum []
        (extractFigRefs "Figure 1. KM curves\nFigure 2. Flow chart".data))).map
        FigRef.fig_num).Perm
        (uniqueNums "Figure 1. KM curves\nFigure 2. Flow chart".data) ∧
      List.Sorted (· < ·)
        ((List.insertionSort refLe (dedupByNum []
          (extractFigRefs "Figure 1. KM curves\nFigure 2. Flow chart".data))).map
          FigRef.fig_num)) :=
  ⟨by decide,
    c5_equal_counts "Figure 1. KM curves\nFigure 2. Flow chart".data
      [⟨0, 2, [], "d2".data⟩, ⟨1, 1, [], "d1".data⟩] (by decide)⟩

end Pipeline
